import Mathlib

/-!
Verification development for the FinanceTracker repository.

The repository contains two parallel Express route implementations for
transactions:

* implementation A: `finance tracker/server/routes/transactions.js`
  together with the ownership middleware (`middleware/auth.js`,
  `verifyTransactionOwnership`);
* implementation B: the unnamed routes file (`src/unnamed/part_001`),
  which is the complete statistics implementation (summary, category
  breakdown with income/expense/total, monthly series, topCategories,
  monthlyTrend).

Dates are modelled timezone-naively as (year, month, day) records: the
JavaScript code extracts year and month components from the stored date
(implementation A via toISOString, implementation B via getFullYear and
getMonth), and the embedding works with those components directly.
JavaScript number amounts are modelled as integers; JavaScript objects
used as dictionaries are modelled as insertion-ordered association
lists, which matches the enumeration order of Object.entries for the
non-index string keys used here (category labels, YYYY-MM keys).
-/

set_option autoImplicit false

namespace FinanceTracker

/-- Calendar date, timezone-naive; month is 1-based as in the emitted keys. -/
structure Date where
  year : Nat
  month : Nat
  day : Nat
deriving DecidableEq

/-- Date comparison used to model the $gte and $lte bounds of the Mongo query. -/
def Date.leb (a b : Date) : Bool :=
  decide (a.year < b.year) ||
    (decide (a.year = b.year) &&
      (decide (a.month < b.month) ||
        (decide (a.month = b.month) && decide (a.day ≤ b.day))))

/-- Transaction document (models/Transaction.js): owner reference, type
restricted by the schema to income or expense, positive amount, free-text
category, optional note, occurrence date. The owner field is named userId in
implementation B and user in implementation A; one field models both. -/
structure Transaction where
  tid : Nat
  userId : Nat
  type : String
  amount : Int
  category : String
  note : Option String
  date : Date
deriving DecidableEq

/-- Error response: HTTP status plus message. -/
structure ErrResp where
  status : Nat
  message : String
deriving DecidableEq

/-- Summary totals of the stats endpoint. -/
structure Summary where
  totalIncome : Int
  totalExpense : Int
  netBalance : Int
deriving DecidableEq

/-- Per-key accumulator of the category and monthly groupings of
implementation B: separate income and expense sums. -/
structure IncExp where
  income : Int
  expense : Int
deriving DecidableEq

/-- Per-month accumulator of implementation A, which also stores the running
balance. -/
structure MIEB where
  income : Int
  expense : Int
  balance : Int
deriving DecidableEq

/-- Category record emitted by implementation B:
{category, income, expense, total}. -/
structure CatRec where
  category : String
  income : Int
  expense : Int
  total : Int
deriving DecidableEq

/-- Category record emitted by implementation A: only {category, expense}. -/
structure CatRecA where
  category : String
  expense : Int
deriving DecidableEq

/-- Monthly record emitted by both implementations:
{month, income, expense, balance}. -/
structure MonthRec where
  month : String
  income : Int
  expense : Int
  balance : Int
deriving DecidableEq

/-- Record of the monthlyTrend projection of implementation B. -/
structure TrendRec where
  month : String
  balance : Int
deriving DecidableEq

/-- Full stats response of implementation B. -/
structure StatsResponse where
  summary : Summary
  monthlyData : List MonthRec
  categoryData : List CatRec
  topCategories : List CatRec
  monthlyTrend : List TrendRec
deriving DecidableEq

/-- Update of a JavaScript object field with a default for a missing key:
if the key is present its value is rewritten in place, otherwise the new key
is appended, matching object insertion order. -/
def jsUpsert {V : Type} (m : List (String × V)) (k : String) (init : V)
    (f : V → V) : List (String × V) :=
  match m with
  | [] => [(k, f init)]
  | (k', v) :: rest =>
    if k' = k then (k', f v) :: rest else (k', v) :: jsUpsert rest k init f

/-- Reduce of a list into a JavaScript object keyed by `key`, each element
updating its bucket with `upd` starting from `init`; models the
`transactions.reduce((acc, t) => ..., {})` groupings. -/
def jsGroup {α V : Type} (key : α → String) (init : V) (upd : α → V → V)
    (ts : List α) : List (String × V) :=
  ts.foldl (fun acc t => jsUpsert acc (key t) init (upd t)) []

/-- Step of first-occurrence key deduplication. -/
def dedupStep (acc : List String) (k : String) : List String :=
  if k ∈ acc then acc else acc ++ [k]

/-- Keys of a JavaScript object built by a grouping reduce, in insertion
(first occurrence) order. -/
def dedupKeys (l : List String) : List String :=
  l.foldl dedupStep []

/-- Insertion into a sorted list, placing `x` before the first element `y`
with `le x y`; ties therefore keep the earlier element first, as in the
stable Array.prototype.sort. -/
def insertSorted {α : Type} (le : α → α → Bool) (x : α) : List α → List α
  | [] => [x]
  | y :: ys => if le x y then x :: y :: ys else y :: insertSorted le x ys

/-- Stable sort modelling Array.prototype.sort with a consistent comparator. -/
def sortStable {α : Type} (le : α → α → Bool) (l : List α) : List α :=
  l.foldr (insertSorted le) []

/-- Truthiness of a possibly-undefined JavaScript string: undefined and the
empty string are falsy. -/
def strTruthy : Option String → Bool
  | none => false
  | some s => !(s == "")

/-- Truthiness of a possibly-undefined JavaScript number: undefined and 0 are
falsy. -/
def numTruthy : Option Int → Bool
  | none => false
  | some a => !(a == 0)

/-- Model of `amount <= 0` on a possibly-undefined number: comparison with
undefined is false (NaN comparison). -/
def numLe0 : Option Int → Bool
  | none => false
  | some a => decide (a ≤ 0)

/-- Model of `['income', 'expense'].includes(type)` on the raw request value. -/
def includesIncomeExpense (t : Option String) : Bool :=
  t == some "income" || t == some "expense"

/-- Two-digit zero padding, as in String(n).padStart(2, '0'). -/
def pad2 (n : Nat) : String :=
  if n < 10 then "0" ++ toString n else toString n

/-- Four-digit zero padding of the year in toISOString. -/
def pad4 (n : Nat) : String :=
  if n < 10 then "000" ++ toString n
  else if n < 100 then "00" ++ toString n
  else if n < 1000 then "0" ++ toString n
  else toString n

/-- Month key of implementation B: template literal of getFullYear and the
zero-padded 1-based month. -/
def monthKey (d : Date) : String :=
  toString d.year ++ "-" ++ pad2 d.month

/-- Month key of implementation A: toISOString().slice(0, 7). -/
def monthKeyISO (d : Date) : String :=
  pad4 d.year ++ "-" ++ pad2 d.month

/-- Sum of the amounts of a transaction list. -/
def amountSum (l : List Transaction) : Int :=
  (l.map Transaction.amount).sum

/-- Sum of the amounts of the income-typed transactions of a list. -/
def incSum (l : List Transaction) : Int :=
  amountSum (l.filter (fun t => t.type == "income"))

/-- Sum of the amounts of the transactions the summing reduces treat as
expenses: every transaction whose type is not income (the else branch of the
source). -/
def elseSum (l : List Transaction) : Int :=
  amountSum (l.filter (fun t => !(t.type == "income")))

/-- Shared accumulator step of the summary reduce of both implementations. -/
def summaryStep (acc : Int × Int) (t : Transaction) : Int × Int :=
  if t.type == "income" then (acc.1 + t.amount, acc.2) else (acc.1, acc.2 + t.amount)

/-- Accumulator step of the categoryStats and monthlyStats reduces of
implementation B: add the amount to the income or the expense sum. -/
def incExpStep (t : Transaction) (v : IncExp) : IncExp :=
  if t.type == "income" then { v with income := v.income + t.amount }
  else { v with expense := v.expense + t.amount }

/-- Accumulator step of the monthly reduce of implementation A, which also
rewrites the balance after each element. -/
def mieStep (t : Transaction) (v : MIEB) : MIEB :=
  let v' := if t.type == "income" then { v with income := v.income + t.amount }
            else { v with expense := v.expense + t.amount }
  { v' with balance := v'.income - v'.expense }

/-! ## Implementation B: src/unnamed/part_001 -/

namespace ImplB

/-- Summary reduce of the stats route, followed by netBalance assignment. -/
def summary (ts : List Transaction) : Summary :=
  let base := ts.foldl summaryStep ((0 : Int), (0 : Int))
  { totalIncome := base.1, totalExpense := base.2, netBalance := base.1 - base.2 }

/-- Group by category: categoryStats reduce. -/
def categoryStats (ts : List Transaction) : List (String × IncExp) :=
  jsGroup (fun t => t.category) ⟨0, 0⟩ incExpStep ts

/-- Format category data: Object.entries(categoryStats).map to
{category, income, expense, total}. -/
def categoryData (ts : List Transaction) : List CatRec :=
  (categoryStats ts).map (fun e => ⟨e.1, e.2.income, e.2.expense, e.2.income + e.2.expense⟩)

/-- Group by month: monthlyStats reduce keyed by the YYYY-MM template key. -/
def monthlyStats (ts : List Transaction) : List (String × IncExp) :=
  jsGroup (fun t => monthKey t.date) ⟨0, 0⟩ incExpStep ts

/-- Format monthly data: entries sorted ascending by key with localeCompare,
then mapped to {month, income, expense, balance}. -/
def monthlyData (ts : List Transaction) : List MonthRec :=
  (sortStable (fun a b => decide (a.1 ≤ b.1)) (monthlyStats ts)).map
    (fun e => ⟨e.1, e.2.income, e.2.expense, e.2.income - e.2.expense⟩)

/-- Stats response body. The topCategories expression sorts the categoryData
array in place before slicing, so the serialized categoryData property shares
the descending-by-total order. -/
def stats (ts : List Transaction) : StatsResponse :=
  let sortedCat := sortStable (fun a b => decide (b.total ≤ a.total)) (categoryData ts)
  { summary := summary ts
    monthlyData := monthlyData ts
    categoryData := sortedCat
    topCategories := sortedCat.take 5
    monthlyTrend := (monthlyData ts).map (fun d => ⟨d.month, d.balance⟩) }

/-- Stats fetch: user documents restricted by the optional inclusive $gte and
$lte date bounds, both read from the query string. -/
def fetchStats (store : List Transaction) (u : Nat)
    (startDate endDate : Option Date) : List Transaction :=
  store.filter (fun t => t.userId == u
    && (match startDate with | none => true | some sd => Date.leb sd t.date)
    && (match endDate with | none => true | some ed => Date.leb t.date ed))

/-- Body of a create request, fields possibly undefined. -/
structure CreateBody where
  type : Option String
  amount : Option Int
  category : Option String
  note : Option String
  date : Option Date
deriving DecidableEq

/-- Create route of implementation B: required-field check (JavaScript
truthiness), enum check, positivity check, then construction of the document
with the authenticated owner and the date defaulting to now. `nid` is the id
the store assigns. -/
def createTransaction (u nid : Nat) (now : Date) (b : CreateBody) :
    Except ErrResp Transaction :=
  if !(strTruthy b.type) || !(numTruthy b.amount) || !(strTruthy b.category) then
    .error ⟨400, "Type, amount, and category are required"⟩
  else if !(includesIncomeExpense b.type) then
    .error ⟨400, "Type must be either income or expense"⟩
  else if numLe0 b.amount then
    .error ⟨400, "Amount must be greater than 0"⟩
  else
    .ok { tid := nid, userId := u, type := b.type.getD "", amount := b.amount.getD 0,
          category := b.category.getD "", note := b.note, date := b.date.getD now }

/-- Body of an update request; a `some` note field models a note key present
in the request (the source tests note !== undefined). -/
structure UpdateBody where
  type : Option String
  amount : Option Int
  category : Option String
  note : Option String
  date : Option Date
deriving DecidableEq

/-- Update route body of implementation B after the ownership lookup: the
sequential field updates guarded by presence checks, with the enum and
positivity re-validation; a validation failure returns 400 before save, so
the stored document is unchanged. The sequential if-chain of the source is
flattened: an error is returned exactly when a guarded check fires, and
otherwise every provided field is applied. -/
def updateTransaction (t0 : Transaction) (b : UpdateBody) :
    Except ErrResp Transaction :=
  if strTruthy b.type && !(includesIncomeExpense b.type) then
    .error ⟨400, "Type must be either income or expense"⟩
  else if b.amount.isSome && numLe0 b.amount then
    .error ⟨400, "Amount must be greater than 0"⟩
  else
    .ok { t0 with
      type := if strTruthy b.type then b.type.getD t0.type else t0.type
      amount := if b.amount.isSome then b.amount.getD t0.amount else t0.amount
      category := if strTruthy b.category then b.category.getD t0.category else t0.category
      note := if b.note.isSome then b.note else t0.note
      date := if b.date.isSome then b.date.getD t0.date else t0.date }

/-- Single-transaction lookup of implementation B: findOne on id and owner;
404 when absent or foreign. -/
def getTransaction (store : List Transaction) (id u : Nat) :
    Except ErrResp Transaction :=
  match store.find? (fun t => t.tid == id && t.userId == u) with
  | none => .error ⟨404, "Transaction not found"⟩
  | some t => .ok t

/-- Update route of implementation B at the store level: ownership-scoped
findOne, field updates, save on success; on failure the store is returned
unchanged. -/
def putRoute (store : List Transaction) (id u : Nat) (b : UpdateBody) :
    Except ErrResp Transaction × List Transaction :=
  match store.find? (fun t => t.tid == id && t.userId == u) with
  | none => (.error ⟨404, "Transaction not found"⟩, store)
  | some t =>
    match updateTransaction t b with
    | .error e => (.error e, store)
    | .ok t' => (.ok t', store.map (fun s => if s.tid == id then t' else s))

end ImplB

/-! ## Implementation A: finance tracker/server/routes/transactions.js and
middleware/auth.js -/

namespace ImplA

/-- Summary reduce of the stats route of implementation A; the source is
line-identical to implementation B. -/
def summary (ts : List Transaction) : Summary :=
  let base := ts.foldl summaryStep ((0 : Int), (0 : Int))
  { totalIncome := base.1, totalExpense := base.2, netBalance := base.1 - base.2 }

/-- Category distribution of implementation A: the fetched set is first
filtered to expense-typed transactions, then summed per category label. -/
def categoryStats (ts : List Transaction) : List (String × Int) :=
  jsGroup (fun t => t.category) (0 : Int) (fun t v => v + t.amount)
    (ts.filter (fun t => t.type == "expense"))

/-- Formatted category data of implementation A: {category, expense} records
only; no income and no total field is emitted. -/
def formattedCategoryData (ts : List Transaction) : List CatRecA :=
  (categoryStats ts).map (fun e => ⟨e.1, e.2⟩)

/-- Monthly reduce of implementation A, keyed by toISOString().slice(0, 7). -/
def monthlyStats (ts : List Transaction) : List (String × MIEB) :=
  jsGroup (fun t => monthKeyISO t.date) ⟨0, 0, 0⟩ mieStep ts

/-- Formatted monthly data of implementation A: entries mapped to records and
then sorted ascending by month with localeCompare. -/
def formattedMonthlyData (ts : List Transaction) : List MonthRec :=
  sortStable (fun a b => decide (a.month ≤ b.month))
    ((monthlyStats ts).map (fun e => ⟨e.1, e.2.income, e.2.expense, e.2.balance⟩))

/-- Stats fetch of implementation A: the handler destructures only startDate
from the query; endDate is never read, so only the $gte bound is applied. -/
def fetchStats (store : List Transaction) (u : Nat)
    (startDate _endDate : Option Date) : List Transaction :=
  store.filter (fun t => t.userId == u
    && (match startDate with | none => true | some sd => Date.leb sd t.date))

/-- Ownership middleware of implementation A (middleware/auth.js): findById
without owner scoping, 404 when absent, 403 when the owner differs, and on
success the loaded document is attached to the request. -/
def verifyTransactionOwnership (store : List Transaction) (id u : Nat) :
    Except ErrResp Transaction :=
  match store.find? (fun t => t.tid == id) with
  | none => .error ⟨404, "Transaction not found"⟩
  | some t =>
    if !(t.userId == u) then .error ⟨403, "Not authorized to access this transaction"⟩
    else .ok t

/-- Modelled from the spec: the Transaction model file of implementation A is
not under src/ (its routes reference a model whose owner field is named user,
while the bundled models/Transaction.js defines the userId-keyed model of
implementation B). Per the data-model section of the spec, the schema
requires type, amount and category, constrains type to the income/expense
enumeration, requires amount > 0, and defaults the date to now. -/
def schemaAccepts (t : Transaction) (b : ImplB.CreateBody) : Bool :=
  !(b.type.isNone || b.amount.isNone || b.category.isNone)
    && (t.type == "income" || t.type == "expense")
    && decide (0 < t.amount)

/-- Create route of implementation A: no route-level validation; the document
is built from the body with the authenticated owner and saved, and any save
(validation) failure is caught and returned as 500 Server error. -/
def createTransaction (u nid : Nat) (now : Date) (b : ImplB.CreateBody) :
    Except ErrResp Transaction :=
  let doc : Transaction :=
    { tid := nid, userId := u, type := b.type.getD "", amount := b.amount.getD 0,
      category := b.category.getD "", note := b.note, date := b.date.getD now }
  if schemaAccepts doc b then .ok doc
  else .error ⟨500, "Server error"⟩

/-- Model of findByIdAndUpdate(id, req.body, {new: true}): the plain body
object acts as $set, so exactly the provided fields are overwritten; the
schema validators are not run on update (the mongoose default). -/
def findByIdAndUpdate (t : Transaction) (b : ImplB.UpdateBody) : Transaction :=
  { t with
    type := b.type.getD t.type
    amount := b.amount.getD t.amount
    category := b.category.getD t.category
    note := if b.note.isSome then b.note else t.note
    date := b.date.getD t.date }

/-- Update route of implementation A: ownership middleware, then an
unvalidated findByIdAndUpdate. -/
def putRoute (store : List Transaction) (id u : Nat) (b : ImplB.UpdateBody) :
    Except ErrResp Transaction × List Transaction :=
  match verifyTransactionOwnership store id u with
  | .error e => (.error e, store)
  | .ok t =>
    let t' := findByIdAndUpdate t b
    (.ok t', store.map (fun s => if s.tid == id then t' else s))

end ImplA

/-! ## Generic lemmas about the JavaScript object and sort models -/

/-- Value of a grouping reduce at a key: the bucket updates applied, in list
order, to the elements carrying that key. -/
def groupVal {α V : Type} (key : α → String) (init : V) (upd : α → V → V)
    (ts : List α) (k : String) : V :=
  (ts.filter (fun t => key t == k)).foldl (fun v t => upd t v) init

theorem mem_foldl_dedupStep (l : List String) (acc : List String) (x : String) :
    x ∈ l.foldl dedupStep acc ↔ x ∈ acc ∨ x ∈ l := by
  induction l generalizing acc with
  | nil => simp
  | cons k ks ih =>
    simp only [List.foldl_cons, dedupStep]
    by_cases hk : k ∈ acc
    · rw [if_pos hk, ih]
      simp only [List.mem_cons]
      constructor
      · rintro (h | h) <;> tauto
      · rintro (h | rfl | h) <;> tauto
    · rw [if_neg hk, ih]
      simp only [List.mem_append, List.mem_cons, List.mem_singleton]
      tauto

theorem nodup_foldl_dedupStep (l : List String) (acc : List String)
    (h : acc.Nodup) : (l.foldl dedupStep acc).Nodup := by
  induction l generalizing acc with
  | nil => simpa
  | cons k ks ih =>
    simp only [List.foldl_cons, dedupStep]
    by_cases hk : k ∈ acc
    · rw [if_pos hk]
      exact ih acc h
    · rw [if_neg hk]
      refine ih _ ?_
      simp [List.nodup_append, h, hk]

theorem mem_dedupKeys {l : List String} {x : String} :
    x ∈ dedupKeys l ↔ x ∈ l := by
  unfold dedupKeys
  rw [mem_foldl_dedupStep]
  simp

theorem dedupKeys_nodup (l : List String) : (dedupKeys l).Nodup :=
  nodup_foldl_dedupStep l [] List.nodup_nil

theorem dedupKeys_concat (l : List String) (k : String) :
    dedupKeys (l ++ [k]) = if k ∈ l then dedupKeys l else dedupKeys l ++ [k] := by
  have h1 : dedupKeys (l ++ [k]) = dedupStep (dedupKeys l) k := by
    unfold dedupKeys
    rw [List.foldl_append]
    rfl
  rw [h1]
  unfold dedupStep
  by_cases hk : k ∈ l
  · rw [if_pos (mem_dedupKeys.mpr hk), if_pos hk]
  · rw [if_neg (fun h => hk (mem_dedupKeys.mp h)), if_neg hk]

theorem jsUpsert_map_of_not_mem {V : Type} (ks : List String) (g : String → V)
    (k : String) (init : V) (f : V → V) (hk : k ∉ ks) :
    jsUpsert (ks.map (fun x => (x, g x))) k init f
      = ks.map (fun x => (x, g x)) ++ [(k, f init)] := by
  induction ks with
  | nil => rfl
  | cons a as ih =>
    simp only [List.map_cons, jsUpsert]
    have h1 : ¬ (a = k) := fun h => hk (by simp [h])
    rw [if_neg h1, ih (fun h => hk (List.mem_cons_of_mem _ h))]
    simp

theorem jsUpsert_map_of_mem {V : Type} (ks : List String) (g : String → V)
    (k : String) (init : V) (f : V → V) (hnd : ks.Nodup) (hk : k ∈ ks) :
    jsUpsert (ks.map (fun x => (x, g x))) k init f
      = ks.map (fun x => (x, if x = k then f (g x) else g x)) := by
  induction ks with
  | nil => cases hk
  | cons a as ih =>
    simp only [List.map_cons, jsUpsert]
    by_cases hak : a = k
    · subst hak
      rw [if_pos rfl, if_pos rfl]
      congr 1
      apply List.map_congr_left
      intro x hx
      rw [if_neg]
      intro h
      subst h
      exact (List.nodup_cons.mp hnd).1 hx
    · rw [if_neg hak, if_neg hak]
      have hk' : k ∈ as := by
        rcases List.mem_cons.mp hk with h | h
        · exact absurd h.symm hak
        · exact h
      rw [ih (List.nodup_cons.mp hnd).2 hk']

theorem groupVal_concat {α V : Type} (key : α → String) (init : V)
    (upd : α → V → V) (l : List α) (t : α) (k : String) :
    groupVal key init upd (l ++ [t]) k
      = if key t = k then upd t (groupVal key init upd l k)
        else groupVal key init upd l k := by
  unfold groupVal
  rw [List.filter_append]
  by_cases h : key t = k
  · rw [if_pos h]
    simp [List.filter_cons, h, List.foldl_append]
  · rw [if_neg h]
    simp [List.filter_cons, h]

theorem groupVal_of_not_mem {α V : Type} (key : α → String) (init : V)
    (upd : α → V → V) (l : List α) (k : String) (hk : k ∉ l.map key) :
    groupVal key init upd l k = init := by
  unfold groupVal
  have h : l.filter (fun t => key t == k) = [] := by
    rw [List.filter_eq_nil_iff]
    intro t ht hkt
    exact hk (List.mem_map.mpr ⟨t, ht, beq_iff_eq.mp hkt⟩)
  rw [h]
  rfl

theorem jsGroup_eq {α V : Type} (key : α → String) (init : V)
    (upd : α → V → V) (ts : List α) :
    jsGroup key init upd ts
      = (dedupKeys (ts.map key)).map
          (fun k => (k, groupVal key init upd ts k)) := by
  induction ts using List.reverseRecOn with
  | nil => rfl
  | append_singleton l t ih =>
    have hL : jsGroup key init upd (l ++ [t])
        = jsUpsert (jsGroup key init upd l) (key t) init (upd t) := by
      unfold jsGroup
      rw [List.foldl_append]
      rfl
    rw [hL, ih]
    simp only [List.map_append, List.map_cons, List.map_nil]
    by_cases hk : key t ∈ l.map key
    · rw [jsUpsert_map_of_mem _ _ _ _ _ (dedupKeys_nodup _) (mem_dedupKeys.mpr hk)]
      rw [show dedupKeys (l.map key ++ [key t]) = dedupKeys (l.map key) from by
        rw [dedupKeys_concat, if_pos hk]]
      apply List.map_congr_left
      intro x hx
      by_cases hxk : x = key t
      · subst hxk
        rw [if_pos rfl, groupVal_concat, if_pos rfl]
      · rw [if_neg hxk, groupVal_concat, if_neg (fun h => hxk h.symm)]
    · rw [jsUpsert_map_of_not_mem _ _ _ _ _ (fun h => hk (mem_dedupKeys.mp h))]
      rw [dedupKeys_concat, if_neg hk, List.map_append]
      congr 1
      · apply List.map_congr_left
        intro x hx
        rw [groupVal_concat, if_neg]
        intro h
        exact hk (h ▸ mem_dedupKeys.mp hx)
      · simp only [List.map_cons, List.map_nil]
        rw [groupVal_concat, if_pos rfl,
          groupVal_of_not_mem _ _ _ _ _ hk]

theorem insertSorted_perm {α : Type} (le : α → α → Bool) (x : α) (l : List α) :
    (insertSorted le x l).Perm (x :: l) := by
  induction l with
  | nil => exact List.Perm.refl _
  | cons y ys ih =>
    unfold insertSorted
    by_cases h : le x y
    · rw [if_pos h]
    · rw [if_neg h]
      exact (ih.cons y).trans (List.Perm.swap x y ys)

theorem sortStable_perm {α : Type} (le : α → α → Bool) (l : List α) :
    (sortStable le l).Perm l := by
  induction l with
  | nil => exact List.Perm.refl _
  | cons x xs ih =>
    simp only [sortStable, List.foldr_cons]
    exact (insertSorted_perm le x _).trans (List.Perm.cons x ih)

theorem insertSorted_pairwise {α : Type} (le : α → α → Bool)
    (htot : ∀ a b, le a b = true ∨ le b a = true)
    (htr : ∀ a b c, le a b = true → le b c = true → le a c = true)
    (x : α) (l : List α) (h : l.Pairwise (fun a b => le a b = true)) :
    (insertSorted le x l).Pairwise (fun a b => le a b = true) := by
  induction l with
  | nil => simp [insertSorted]
  | cons y ys ih =>
    unfold insertSorted
    rcases List.pairwise_cons.mp h with ⟨hy, hys⟩
    by_cases hxy : le x y = true
    · rw [if_pos hxy]
      refine List.pairwise_cons.mpr ⟨?_, h⟩
      intro z hz
      rcases List.mem_cons.mp hz with rfl | hz
      · exact hxy
      · exact htr x y z hxy (hy z hz)
    · rw [if_neg hxy]
      refine List.pairwise_cons.mpr ⟨?_, ih hys⟩
      intro z hz
      have hz' : z = x ∨ z ∈ ys := by
        have hmem := (insertSorted_perm le x ys).mem_iff.mp hz
        simpa using hmem
      rcases hz' with rfl | hz'
      · rcases htot y z with h' | h'
        · exact h'
        · exact absurd h' hxy
      · exact hy z hz'

theorem sortStable_pairwise {α : Type} (le : α → α → Bool)
    (htot : ∀ a b, le a b = true ∨ le b a = true)
    (htr : ∀ a b c, le a b = true → le b c = true → le a c = true)
    (l : List α) :
    (sortStable le l).Pairwise (fun a b => le a b = true) := by
  induction l with
  | nil => simp [sortStable]
  | cons x xs ih =>
    simp only [sortStable, List.foldr_cons] at ih ⊢
    exact insertSorted_pairwise le htot htr x _ ih

/-! ## Characterizations of the accumulator folds -/

theorem amountSum_cons (t : Transaction) (ts : List Transaction) :
    amountSum (t :: ts) = t.amount + amountSum ts := by
  simp [amountSum]

theorem incSum_cons (t : Transaction) (ts : List Transaction) :
    incSum (t :: ts) = (if t.type == "income" then t.amount else 0) + incSum ts := by
  unfold incSum amountSum
  by_cases h : (t.type == "income") = true
  · simp [List.filter_cons, h]
  · simp [List.filter_cons, h]

theorem elseSum_cons (t : Transaction) (ts : List Transaction) :
    elseSum (t :: ts) = (if t.type == "income" then 0 else t.amount) + elseSum ts := by
  unfold elseSum amountSum
  by_cases h : (t.type == "income") = true
  · simp [List.filter_cons, h]
  · simp [List.filter_cons, h]

theorem foldl_summaryStep (ts : List Transaction) (a b : Int) :
    ts.foldl summaryStep (a, b) = (a + incSum ts, b + elseSum ts) := by
  induction ts generalizing a b with
  | nil => simp [incSum, elseSum, amountSum]
  | cons t ts ih =>
    simp only [List.foldl_cons, summaryStep]
    by_cases h : (t.type == "income") = true
    · rw [if_pos h, ih, incSum_cons, elseSum_cons, if_pos h, if_pos h]
      simp only [Prod.mk.injEq]
      constructor <;> omega
    · rw [if_neg h, ih, incSum_cons, elseSum_cons, if_neg h, if_neg h]
      simp only [Prod.mk.injEq]
      constructor <;> omega

theorem foldl_incExpStep (l : List Transaction) (v : IncExp) :
    l.foldl (fun v t => incExpStep t v) v
      = ⟨v.income + incSum l, v.expense + elseSum l⟩ := by
  induction l generalizing v with
  | nil =>
    cases v
    simp [incSum, elseSum, amountSum]
  | cons t l ih =>
    simp only [List.foldl_cons]
    rw [ih, incSum_cons, elseSum_cons]
    by_cases h : (t.type == "income") = true
    · have hstep : incExpStep t v = ⟨v.income + t.amount, v.expense⟩ := by
        simp [incExpStep, h]
      rw [hstep, if_pos h, if_pos h]
      simp only [IncExp.mk.injEq]
      constructor <;> omega
    · have hstep : incExpStep t v = ⟨v.income, v.expense + t.amount⟩ := by
        simp [incExpStep, h]
      rw [hstep, if_neg h, if_neg h]
      simp only [IncExp.mk.injEq]
      constructor <;> omega

theorem foldl_mieStep (l : List Transaction) (v : MIEB)
    (hv : v.balance = v.income - v.expense) :
    l.foldl (fun v t => mieStep t v) v
      = ⟨v.income + incSum l, v.expense + elseSum l,
         (v.income + incSum l) - (v.expense + elseSum l)⟩ := by
  induction l generalizing v with
  | nil =>
    cases v
    simp only [incSum, elseSum, amountSum, List.filter_nil, List.map_nil,
      List.sum_nil, List.foldl_nil, add_zero]
    simp_all
  | cons t l ih =>
    simp only [List.foldl_cons]
    rw [ih (mieStep t v) rfl, incSum_cons, elseSum_cons]
    by_cases h : (t.type == "income") = true
    · have hstep : mieStep t v
          = ⟨v.income + t.amount, v.expense, (v.income + t.amount) - v.expense⟩ := by
        simp [mieStep, h]
      rw [hstep, if_pos h, if_pos h]
      simp only [MIEB.mk.injEq]
      refine ⟨by omega, by omega, by omega⟩
    · have hstep : mieStep t v
          = ⟨v.income, v.expense + t.amount, v.income - (v.expense + t.amount)⟩ := by
        simp [mieStep, h]
      rw [hstep, if_neg h, if_neg h]
      simp only [MIEB.mk.injEq]
      refine ⟨by omega, by omega, by omega⟩

theorem foldl_add_amount (l : List Transaction) (v : Int) :
    l.foldl (fun v t => v + t.amount) v = v + amountSum l := by
  induction l generalizing v with
  | nil => simp [amountSum]
  | cons t l ih =>
    simp only [List.foldl_cons]
    rw [ih, amountSum_cons]
    omega

theorem amountSum_filter_partition (p : Transaction → Bool) (ts : List Transaction) :
    amountSum (ts.filter p) + amountSum (ts.filter (fun t => !(p t))) = amountSum ts := by
  induction ts with
  | nil => simp [amountSum]
  | cons t ts ih =>
    by_cases h : p t = true
    · simp only [List.filter_cons, h, Bool.not_true, if_pos, if_neg, amountSum_cons]
      simp only [↓reduceIte, Bool.false_eq_true]
      omega
    · simp only [List.filter_cons, h]
      simp only [Bool.not_eq_true] at h
      simp only [h, Bool.not_false, ↓reduceIte, Bool.false_eq_true, amountSum_cons]
      omega

theorem keyPartitionSum (key : Transaction → String) (ks : List String)
    (ts : List Transaction) (hn : ks.Nodup) (hcov : ∀ t ∈ ts, key t ∈ ks) :
    (ks.map (fun k => amountSum (ts.filter (fun t => key t == k)))).sum
      = amountSum ts := by
  induction ks generalizing ts with
  | nil =>
    have hts : ts = [] :=
      List.eq_nil_iff_forall_not_mem.mpr (fun t ht => by simpa using hcov t ht)
    subst hts
    simp [amountSum]
  | cons k ks ih =>
    simp only [List.map_cons, List.sum_cons]
    have hknotin : k ∉ ks := (List.nodup_cons.mp hn).1
    have hrest : ∀ k' ∈ ks,
        amountSum (ts.filter (fun t => key t == k'))
          = amountSum ((ts.filter (fun t => !(key t == k))).filter
              (fun t => key t == k')) := by
      intro k' hk'
      rw [List.filter_filter]
      congr 1
      apply List.filter_congr
      intro t ht
      by_cases h : key t = k'
      · have hkk : ¬ (key t = k) := by
          intro h2
          apply hknotin
          rw [← h2, h]
          exact hk'
        simp only [h, hkk, beq_iff_eq, Bool.not_eq_true', beq_eq_false_iff_ne,
          ne_eq]
        simp [hkk]
        exact fun h2 => hknotin (h2 ▸ hk')
      · simp [h]
    rw [List.map_congr_left (fun k' hk' => by rw [hrest k' hk'])]
    rw [ih (ts.filter (fun t => !(key t == k))) (List.nodup_cons.mp hn).2 ?_]
    · exact amountSum_filter_partition (fun t => key t == k) ts
    · intro t ht
      rcases List.mem_filter.mp ht with ⟨ht1, ht2⟩
      rcases List.mem_cons.mp (hcov t ht1) with h | h
      · exfalso
        simp only [Bool.not_eq_true'] at ht2
        rw [h] at ht2
        simp at ht2
      · exact h

/-! ## Characterizations of the route computations -/

theorem summaryB_eq (ts : List Transaction) :
    ImplB.summary ts = ⟨incSum ts, elseSum ts, incSum ts - elseSum ts⟩ := by
  unfold ImplB.summary
  rw [foldl_summaryStep]
  simp

theorem summaryA_eq (ts : List Transaction) :
    ImplA.summary ts = ImplB.summary ts := rfl

theorem categoryStatsB_eq (ts : List Transaction) :
    ImplB.categoryStats ts
      = (dedupKeys (ts.map (fun t => t.category))).map
          (fun k => (k, (⟨incSum (ts.filter (fun t => t.category == k)),
              elseSum (ts.filter (fun t => t.category == k))⟩ : IncExp))) := by
  unfold ImplB.categoryStats
  rw [jsGroup_eq]
  apply List.map_congr_left
  intro k hk
  have h : groupVal (fun t => t.category) (⟨0, 0⟩ : IncExp) incExpStep ts k
      = ⟨incSum (ts.filter (fun t => t.category == k)),
          elseSum (ts.filter (fun t => t.category == k))⟩ := by
    unfold groupVal
    simpa using foldl_incExpStep (ts.filter (fun t => t.category == k)) ⟨0, 0⟩
  rw [h]

theorem monthlyStatsB_eq (ts : List Transaction) :
    ImplB.monthlyStats ts
      = (dedupKeys (ts.map (fun t => monthKey t.date))).map
          (fun k => (k, (⟨incSum (ts.filter (fun t => monthKey t.date == k)),
              elseSum (ts.filter (fun t => monthKey t.date == k))⟩ : IncExp))) := by
  unfold ImplB.monthlyStats
  rw [jsGroup_eq]
  apply List.map_congr_left
  intro k hk
  have h : groupVal (fun t => monthKey t.date) (⟨0, 0⟩ : IncExp) incExpStep ts k
      = ⟨incSum (ts.filter (fun t => monthKey t.date == k)),
          elseSum (ts.filter (fun t => monthKey t.date == k))⟩ := by
    unfold groupVal
    simpa using foldl_incExpStep (ts.filter (fun t => monthKey t.date == k)) ⟨0, 0⟩
  rw [h]

theorem categoryStatsA_eq (ts : List Transaction) :
    ImplA.categoryStats ts
      = (dedupKeys ((ts.filter (fun t => t.type == "expense")).map
          (fun t => t.category))).map
          (fun k => (k, amountSum ((ts.filter (fun t => t.type == "expense")).filter
              (fun t => t.category == k)))) := by
  unfold ImplA.categoryStats
  rw [jsGroup_eq]
  apply List.map_congr_left
  intro k hk
  have h : groupVal (fun t => t.category) (0 : Int) (fun t v => v + t.amount)
        (ts.filter (fun t => t.type == "expense")) k
      = amountSum ((ts.filter (fun t => t.type == "expense")).filter
          (fun t => t.category == k)) := by
    unfold groupVal
    simpa using foldl_add_amount
      ((ts.filter (fun t => t.type == "expense")).filter (fun t => t.category == k)) 0
  rw [h]

theorem monthlyStatsA_eq (ts : List Transaction) :
    ImplA.monthlyStats ts
      = (dedupKeys (ts.map (fun t => monthKeyISO t.date))).map
          (fun k => (k, (⟨incSum (ts.filter (fun t => monthKeyISO t.date == k)),
              elseSum (ts.filter (fun t => monthKeyISO t.date == k)),
              incSum (ts.filter (fun t => monthKeyISO t.date == k))
                - elseSum (ts.filter (fun t => monthKeyISO t.date == k))⟩ : MIEB))) := by
  unfold ImplA.monthlyStats
  rw [jsGroup_eq]
  apply List.map_congr_left
  intro k hk
  have h : groupVal (fun t => monthKeyISO t.date) (⟨0, 0, 0⟩ : MIEB) mieStep ts k
      = ⟨incSum (ts.filter (fun t => monthKeyISO t.date == k)),
          elseSum (ts.filter (fun t => monthKeyISO t.date == k)),
          incSum (ts.filter (fun t => monthKeyISO t.date == k))
            - elseSum (ts.filter (fun t => monthKeyISO t.date == k))⟩ := by
    unfold groupVal
    simpa using foldl_mieStep (ts.filter (fun t => monthKeyISO t.date == k)) ⟨0, 0, 0⟩ rfl
  rw [h]

theorem elseSum_eq_expenseSum (l : List Transaction)
    (h : ∀ t ∈ l, t.type = "income" ∨ t.type = "expense") :
    elseSum l = amountSum (l.filter (fun t => t.type == "expense")) := by
  unfold elseSum
  congr 1
  apply List.filter_congr
  intro t ht
  rcases h t ht with h1 | h1
  · rw [h1]
    decide
  · rw [h1]
    decide

/-! ## Order and membership facts about the emitted arrays -/

theorem entry_le_total {V : Type} (a b : String × V) :
    (decide (a.1 ≤ b.1)) = true ∨ (decide (b.1 ≤ a.1)) = true := by
  rcases le_total a.1 b.1 with h | h
  · exact Or.inl (decide_eq_true h)
  · exact Or.inr (decide_eq_true h)

theorem entry_le_trans {V : Type} (a b c : String × V)
    (h1 : (decide (a.1 ≤ b.1)) = true) (h2 : (decide (b.1 ≤ c.1)) = true) :
    (decide (a.1 ≤ c.1)) = true :=
  decide_eq_true (le_trans (of_decide_eq_true h1) (of_decide_eq_true h2))

theorem monthRec_le_total (a b : MonthRec) :
    (decide (a.month ≤ b.month)) = true ∨ (decide (b.month ≤ a.month)) = true := by
  rcases le_total a.month b.month with h | h
  · exact Or.inl (decide_eq_true h)
  · exact Or.inr (decide_eq_true h)

theorem monthRec_le_trans (a b c : MonthRec)
    (h1 : (decide (a.month ≤ b.month)) = true)
    (h2 : (decide (b.month ≤ c.month)) = true) :
    (decide (a.month ≤ c.month)) = true :=
  decide_eq_true (le_trans (of_decide_eq_true h1) (of_decide_eq_true h2))

theorem catRec_ge_total (a b : CatRec) :
    (decide (b.total ≤ a.total)) = true ∨ (decide (a.total ≤ b.total)) = true := by
  rcases le_total b.total a.total with h | h
  · exact Or.inl (decide_eq_true h)
  · exact Or.inr (decide_eq_true h)

theorem catRec_ge_trans (a b c : CatRec)
    (h1 : (decide (b.total ≤ a.total)) = true)
    (h2 : (decide (c.total ≤ b.total)) = true) :
    (decide (c.total ≤ a.total)) = true :=
  decide_eq_true (le_trans (of_decide_eq_true h2) (of_decide_eq_true h1))

theorem monthlyDataB_sorted (ts : List Transaction) :
    (ImplB.monthlyData ts).Pairwise (fun a b => a.month ≤ b.month) := by
  unfold ImplB.monthlyData
  refine List.Pairwise.map _ (fun a b h => of_decide_eq_true h)
    (sortStable_pairwise _ entry_le_total entry_le_trans _)

theorem mem_monthlyDataB (ts : List Transaction) (r : MonthRec) :
    r ∈ ImplB.monthlyData ts
      ↔ ∃ k ∈ dedupKeys (ts.map (fun t => monthKey t.date)),
          r = ⟨k, incSum (ts.filter (fun t => monthKey t.date == k)),
               elseSum (ts.filter (fun t => monthKey t.date == k)),
               incSum (ts.filter (fun t => monthKey t.date == k))
                 - elseSum (ts.filter (fun t => monthKey t.date == k))⟩ := by
  unfold ImplB.monthlyData
  rw [List.mem_map]
  constructor
  · rintro ⟨e, he, rfl⟩
    have he' : e ∈ ImplB.monthlyStats ts := (sortStable_perm _ _).mem_iff.mp he
    rw [monthlyStatsB_eq] at he'
    rcases List.mem_map.mp he' with ⟨k, hk, rfl⟩
    exact ⟨k, hk, rfl⟩
  · rintro ⟨k, hk, rfl⟩
    refine ⟨(k, ⟨incSum (ts.filter (fun t => monthKey t.date == k)),
      elseSum (ts.filter (fun t => monthKey t.date == k))⟩), ?_, rfl⟩
    rw [(sortStable_perm _ _).mem_iff, monthlyStatsB_eq]
    exact List.mem_map.mpr ⟨k, hk, rfl⟩

theorem monthlyStatsB_pairwise_ne (ts : List Transaction) :
    (ImplB.monthlyStats ts).Pairwise (fun a b => a.1 ≠ b.1) := by
  rw [monthlyStatsB_eq, List.pairwise_map]
  exact dedupKeys_nodup _

theorem monthlyDataB_month_pairwise_ne (ts : List Transaction) :
    (ImplB.monthlyData ts).Pairwise (fun a b => a.month ≠ b.month) := by
  unfold ImplB.monthlyData
  refine List.Pairwise.map _ (fun a b h => h) ?_
  exact ((sortStable_perm _ _).pairwise_iff
    (fun {a b} h h2 => h h2.symm)).mpr (monthlyStatsB_pairwise_ne ts)

theorem formattedMonthlyDataA_sorted (ts : List Transaction) :
    (ImplA.formattedMonthlyData ts).Pairwise (fun a b => a.month ≤ b.month) := by
  unfold ImplA.formattedMonthlyData
  refine (sortStable_pairwise _ monthRec_le_total monthRec_le_trans _).imp ?_
  intro a b h
  exact of_decide_eq_true h

theorem mem_formattedMonthlyDataA (ts : List Transaction) (r : MonthRec) :
    r ∈ ImplA.formattedMonthlyData ts
      ↔ ∃ k ∈ dedupKeys (ts.map (fun t => monthKeyISO t.date)),
          r = ⟨k, incSum (ts.filter (fun t => monthKeyISO t.date == k)),
               elseSum (ts.filter (fun t => monthKeyISO t.date == k)),
               incSum (ts.filter (fun t => monthKeyISO t.date == k))
                 - elseSum (ts.filter (fun t => monthKeyISO t.date == k))⟩ := by
  unfold ImplA.formattedMonthlyData
  rw [(sortStable_perm _ _).mem_iff, List.mem_map]
  constructor
  · rintro ⟨e, he, rfl⟩
    rw [monthlyStatsA_eq] at he
    rcases List.mem_map.mp he with ⟨k, hk, rfl⟩
    exact ⟨k, hk, rfl⟩
  · rintro ⟨k, hk, rfl⟩
    refine ⟨(k, ⟨incSum (ts.filter (fun t => monthKeyISO t.date == k)),
      elseSum (ts.filter (fun t => monthKeyISO t.date == k)),
      incSum (ts.filter (fun t => monthKeyISO t.date == k))
        - elseSum (ts.filter (fun t => monthKeyISO t.date == k))⟩), ?_, rfl⟩
    rw [monthlyStatsA_eq]
    exact List.mem_map.mpr ⟨k, hk, rfl⟩

theorem formattedMonthlyDataA_month_pairwise_ne (ts : List Transaction) :
    (ImplA.formattedMonthlyData ts).Pairwise (fun a b => a.month ≠ b.month) := by
  unfold ImplA.formattedMonthlyData
  refine ((sortStable_perm _ _).pairwise_iff
    (fun {a b} h h2 => h h2.symm)).mpr ?_
  rw [monthlyStatsA_eq, List.map_map, List.pairwise_map]
  exact dedupKeys_nodup _

theorem mem_categoryDataB (ts : List Transaction) (r : CatRec) :
    r ∈ ImplB.categoryData ts
      ↔ ∃ k ∈ dedupKeys (ts.map (fun t => t.category)),
          r = ⟨k, incSum (ts.filter (fun t => t.category == k)),
               elseSum (ts.filter (fun t => t.category == k)),
               incSum (ts.filter (fun t => t.category == k))
                 + elseSum (ts.filter (fun t => t.category == k))⟩ := by
  unfold ImplB.categoryData
  rw [categoryStatsB_eq, List.map_map, List.mem_map]
  constructor
  · rintro ⟨k, hk, rfl⟩
    exact ⟨k, hk, rfl⟩
  · rintro ⟨k, hk, rfl⟩
    exact ⟨k, hk, rfl⟩

theorem categoryDataB_category_pairwise_ne (ts : List Transaction) :
    (ImplB.categoryData ts).Pairwise (fun a b => a.category ≠ b.category) := by
  unfold ImplB.categoryData
  rw [categoryStatsB_eq, List.map_map, List.pairwise_map]
  exact dedupKeys_nodup _

theorem incSum_add_elseSum (l : List Transaction) :
    incSum l + elseSum l = amountSum l :=
  amountSum_filter_partition (fun t => t.type == "income") l

theorem categoryDataB_total_sum (ts : List Transaction) :
    ((ImplB.categoryData ts).map CatRec.total).sum = amountSum ts := by
  have hchar : (ImplB.categoryData ts).map CatRec.total
      = (dedupKeys (ts.map (fun t => t.category))).map
          (fun k => amountSum (ts.filter (fun t => t.category == k))) := by
    unfold ImplB.categoryData
    rw [categoryStatsB_eq, List.map_map, List.map_map]
    apply List.map_congr_left
    intro k hk
    exact incSum_add_elseSum _
  rw [hchar]
  apply keyPartitionSum
  · exact dedupKeys_nodup _
  · intro t ht
    exact mem_dedupKeys.mpr (List.mem_map.mpr ⟨t, ht, rfl⟩)

theorem monthlyDataB_incexp_sum (ts : List Transaction) :
    ((ImplB.monthlyData ts).map (fun m => m.income + m.expense)).sum
      = amountSum ts := by
  have hperm : (((ImplB.monthlyData ts).map (fun m => m.income + m.expense))).Perm
      ((ImplB.monthlyStats ts).map (fun e => e.2.income + e.2.expense)) := by
    unfold ImplB.monthlyData
    rw [List.map_map]
    exact (sortStable_perm _ _).map _
  rw [hperm.sum_eq]
  have hchar : (ImplB.monthlyStats ts).map (fun e => e.2.income + e.2.expense)
      = (dedupKeys (ts.map (fun t => monthKey t.date))).map
          (fun k => amountSum (ts.filter (fun t => monthKey t.date == k))) := by
    rw [monthlyStatsB_eq, List.map_map]
    apply List.map_congr_left
    intro k hk
    exact incSum_add_elseSum _
  rw [hchar]
  apply keyPartitionSum
  · exact dedupKeys_nodup _
  · intro t ht
    exact mem_dedupKeys.mpr (List.mem_map.mpr ⟨t, ht, rfl⟩)

/-! ## Claim theorems -/

/-- C5: for every fetched transaction set the summary accumulates totalIncome
as the sum of the amounts of income-typed transactions, totalExpense as the
sum of the amounts of expense-typed transactions, and netBalance always
equals totalIncome - totalExpense; the empty set yields an all-zero summary.
Implementation A computes the summary with line-identical code, recorded by
the fourth conjunct. -/
theorem C5_summary_totals (ts : List Transaction)
    (henum : ∀ t ∈ ts, t.type = "income" ∨ t.type = "expense") :
    (ImplB.summary ts).totalIncome
        = amountSum (ts.filter (fun t => t.type == "income"))
    ∧ (ImplB.summary ts).totalExpense
        = amountSum (ts.filter (fun t => t.type == "expense"))
    ∧ (ImplB.summary ts).netBalance
        = (ImplB.summary ts).totalIncome - (ImplB.summary ts).totalExpense
    ∧ ImplA.summary ts = ImplB.summary ts
    ∧ ImplB.summary [] = ⟨0, 0, 0⟩ := by
  refine ⟨?_, ?_, ?_, rfl, ?_⟩
  · rw [summaryB_eq]
    rfl
  · rw [summaryB_eq]
    exact elseSum_eq_expenseSum ts henum
  · rw [summaryB_eq]
  · rfl

/-- Witness for C5 at a concrete two-element transaction set. -/
theorem C5_summary_totals_witness :
    (∀ t ∈ ([⟨1, 1, "income", 100, "Salary", none, ⟨2024, 1, 5⟩⟩,
             ⟨2, 1, "expense", 40, "Food", none, ⟨2024, 1, 10⟩⟩] : List Transaction),
        t.type = "income" ∨ t.type = "expense")
    ∧ (ImplB.summary ([⟨1, 1, "income", 100, "Salary", none, ⟨2024, 1, 5⟩⟩,
             ⟨2, 1, "expense", 40, "Food", none, ⟨2024, 1, 10⟩⟩] : List Transaction)).totalExpense
        = amountSum (([⟨1, 1, "income", 100, "Salary", none, ⟨2024, 1, 5⟩⟩,
             ⟨2, 1, "expense", 40, "Food", none, ⟨2024, 1, 10⟩⟩] : List Transaction).filter
            (fun t => t.type == "expense")) :=
  ⟨by decide, (C5_summary_totals _ (by decide)).2.1⟩

theorem formattedMonthlyDataA_incexp_sum (ts : List Transaction) :
    ((ImplA.formattedMonthlyData ts).map (fun m => m.income + m.expense)).sum
      = amountSum ts := by
  have hperm : (((ImplA.formattedMonthlyData ts).map
        (fun m => m.income + m.expense))).Perm
      ((ImplA.monthlyStats ts).map (fun e => e.2.income + e.2.expense)) := by
    unfold ImplA.formattedMonthlyData
    have h1 := (sortStable_perm (fun a b => decide (a.month ≤ b.month))
      ((ImplA.monthlyStats ts).map
        (fun e => (⟨e.1, e.2.income, e.2.expense, e.2.balance⟩ : MonthRec)))).map
      (fun m => m.income + m.expense)
    refine h1.trans ?_
    rw [List.map_map]
    exact List.Perm.refl _
  rw [hperm.sum_eq]
  have hchar : (ImplA.monthlyStats ts).map (fun e => e.2.income + e.2.expense)
      = (dedupKeys (ts.map (fun t => monthKeyISO t.date))).map
          (fun k => amountSum (ts.filter (fun t => monthKeyISO t.date == k))) := by
    rw [monthlyStatsA_eq, List.map_map]
    apply List.map_congr_left
    intro k hk
    exact incSum_add_elseSum _
  rw [hchar]
  apply keyPartitionSum
  · exact dedupKeys_nodup _
  · intro t ht
    exact mem_dedupKeys.mpr (List.mem_map.mpr ⟨t, ht, rfl⟩)

theorem formattedCategoryDataA_expense_sum (ts : List Transaction) :
    ((ImplA.formattedCategoryData ts).map CatRecA.expense).sum
      = amountSum (ts.filter (fun t => t.type == "expense")) := by
  have hchar : (ImplA.formattedCategoryData ts).map CatRecA.expense
      = (dedupKeys ((ts.filter (fun t => t.type == "expense")).map
          (fun t => t.category))).map
          (fun k => amountSum ((ts.filter (fun t => t.type == "expense")).filter
              (fun t => t.category == k))) := by
    unfold ImplA.formattedCategoryData
    rw [categoryStatsA_eq, List.map_map, List.map_map]
    rfl
  rw [hchar]
  apply keyPartitionSum
  · exact dedupKeys_nodup _
  · intro t ht
    exact mem_dedupKeys.mpr (List.mem_map.mpr ⟨t, ht, rfl⟩)

/-- C4 counterexample: for a fetched set with a single income transaction of
100, implementation A emits no category record at all (its breakdown covers
expense-typed transactions only and carries no total field), so the
category-side sum is 0 while the monthly-side sum and
totalIncome + totalExpense are both 100. -/
theorem C4_totals_invariant_cex :
    ImplA.formattedCategoryData
        ([⟨1, 1, "income", 100, "Salary", none, ⟨2024, 1, 5⟩⟩] : List Transaction) = []
    ∧ ((ImplA.formattedCategoryData
        ([⟨1, 1, "income", 100, "Salary", none, ⟨2024, 1, 5⟩⟩] : List Transaction)).map
        CatRecA.expense).sum = 0
    ∧ ((ImplA.formattedMonthlyData
        ([⟨1, 1, "income", 100, "Salary", none, ⟨2024, 1, 5⟩⟩] : List Transaction)).map
        (fun m => m.income + m.expense)).sum = 100
    ∧ (ImplA.summary
          ([⟨1, 1, "income", 100, "Salary", none, ⟨2024, 1, 5⟩⟩] : List Transaction)).totalIncome
        + (ImplA.summary
          ([⟨1, 1, "income", 100, "Salary", none, ⟨2024, 1, 5⟩⟩] : List Transaction)).totalExpense
      = 100 :=
  ⟨rfl, rfl, rfl, rfl⟩

/-- C4 amended: in implementation B the sum of the total field over the
emitted category records equals the sum of income + expense over the emitted
monthly records, and both equal totalIncome + totalExpense of the summary
over the same filtered set. In implementation A only the monthly series
satisfies the invariant; its category records cover expense-typed
transactions only, and their expense sums add up to totalExpense (under the
schema enum), not to totalIncome + totalExpense. -/
theorem C4_totals_invariant (ts : List Transaction) :
    ((ImplB.stats ts).categoryData.map CatRec.total).sum
        = ((ImplB.stats ts).monthlyData.map (fun m => m.income + m.expense)).sum
    ∧ ((ImplB.stats ts).categoryData.map CatRec.total).sum
        = (ImplB.stats ts).summary.totalIncome + (ImplB.stats ts).summary.totalExpense
    ∧ ((ImplA.formattedMonthlyData ts).map (fun m => m.income + m.expense)).sum
        = (ImplA.summary ts).totalIncome + (ImplA.summary ts).totalExpense
    ∧ ((∀ t ∈ ts, t.type = "income" ∨ t.type = "expense") →
        ((ImplA.formattedCategoryData ts).map CatRecA.expense).sum
          = (ImplA.summary ts).totalExpense) := by
  have hc : ((ImplB.stats ts).categoryData.map CatRec.total).sum = amountSum ts := by
    have hperm : (((ImplB.stats ts).categoryData).map CatRec.total).Perm
        ((ImplB.categoryData ts).map CatRec.total) :=
      (sortStable_perm _ _).map _
    rw [hperm.sum_eq, categoryDataB_total_sum]
  have hm : ((ImplB.stats ts).monthlyData.map (fun m => m.income + m.expense)).sum
      = amountSum ts := monthlyDataB_incexp_sum ts
  have hs : (ImplB.stats ts).summary.totalIncome + (ImplB.stats ts).summary.totalExpense
      = amountSum ts := by
    rw [show (ImplB.stats ts).summary = ImplB.summary ts from rfl, summaryB_eq]
    exact incSum_add_elseSum ts
  have hsA : (ImplA.summary ts).totalIncome + (ImplA.summary ts).totalExpense
      = amountSum ts := by
    rw [summaryA_eq, summaryB_eq]
    exact incSum_add_elseSum ts
  have heA : (ImplA.summary ts).totalExpense = elseSum ts := by
    rw [summaryA_eq, summaryB_eq]
  refine ⟨hc.trans hm.symm, hc.trans hs.symm,
    (formattedMonthlyDataA_incexp_sum ts).trans hsA.symm, ?_⟩
  intro henum
  rw [formattedCategoryDataA_expense_sum, heA]
  exact (elseSum_eq_expenseSum ts henum).symm

/-- Witness for the amended C4 at a concrete mixed-type transaction set,
discharging the schema-enum hypothesis of the category conjunct. -/
theorem C4_totals_invariant_witness :
    (∀ t ∈ ([⟨1, 1, "income", 100, "Salary", none, ⟨2024, 1, 5⟩⟩,
             ⟨2, 1, "expense", 40, "Food", none, ⟨2024, 1, 10⟩⟩] : List Transaction),
        t.type = "income" ∨ t.type = "expense")
    ∧ ((ImplA.formattedCategoryData
          ([⟨1, 1, "income", 100, "Salary", none, ⟨2024, 1, 5⟩⟩,
            ⟨2, 1, "expense", 40, "Food", none, ⟨2024, 1, 10⟩⟩] : List Transaction)).map
        CatRecA.expense).sum
      = (ImplA.summary
          ([⟨1, 1, "income", 100, "Salary", none, ⟨2024, 1, 5⟩⟩,
            ⟨2, 1, "expense", 40, "Food", none, ⟨2024, 1, 10⟩⟩] : List Transaction)).totalExpense :=
  ⟨by decide, (C4_totals_invariant _).2.2.2 (by decide)⟩

/-- C10: the categoryData array of the stats response of implementation B is
always sorted descending by its total field, because the topCategories
computation sorts the same array in place before slicing, and topCategories
is exactly the first five records of that shared array. -/
theorem C10_categoryData_sorted_desc (ts : List Transaction) :
    ((ImplB.stats ts).categoryData.Pairwise (fun a b => b.total ≤ a.total))
    ∧ (ImplB.stats ts).topCategories = (ImplB.stats ts).categoryData.take 5 := by
  constructor
  · exact (sortStable_pairwise _ catRec_ge_total catRec_ge_trans _).imp
      (fun {a b} h => of_decide_eq_true h)
  · rfl

/-- C2: the monthly series groups transactions by the year-month key derived
from the transaction date (modelled timezone-naively), emits exactly one
record per observed month carrying the income and expense sums of that month
with balance = income - expense, and the emitted list is sorted ascending by
the lexicographic YYYY-MM month key; both implementations satisfy this. -/
theorem C2_monthly_series (ts : List Transaction)
    (henum : ∀ t ∈ ts, t.type = "income" ∨ t.type = "expense") :
    ((ImplB.monthlyData ts).Pairwise (fun a b => a.month ≤ b.month)
      ∧ (ImplB.monthlyData ts).Pairwise (fun a b => a.month ≠ b.month)
      ∧ (∀ k, (∃ r ∈ ImplB.monthlyData ts, r.month = k)
            ↔ ∃ t ∈ ts, monthKey t.date = k)
      ∧ (∀ r ∈ ImplB.monthlyData ts,
            r.income = amountSum ((ts.filter (fun t => monthKey t.date == r.month)).filter
                (fun t => t.type == "income"))
          ∧ r.expense = amountSum ((ts.filter (fun t => monthKey t.date == r.month)).filter
                (fun t => t.type == "expense"))
          ∧ r.balance = r.income - r.expense))
    ∧ ((ImplA.formattedMonthlyData ts).Pairwise (fun a b => a.month ≤ b.month)
      ∧ (ImplA.formattedMonthlyData ts).Pairwise (fun a b => a.month ≠ b.month)
      ∧ (∀ k, (∃ r ∈ ImplA.formattedMonthlyData ts, r.month = k)
            ↔ ∃ t ∈ ts, monthKeyISO t.date = k)
      ∧ (∀ r ∈ ImplA.formattedMonthlyData ts,
            r.income = amountSum ((ts.filter (fun t => monthKeyISO t.date == r.month)).filter
                (fun t => t.type == "income"))
          ∧ r.expense = amountSum ((ts.filter (fun t => monthKeyISO t.date == r.month)).filter
                (fun t => t.type == "expense"))
          ∧ r.balance = r.income - r.expense)) := by
  constructor
  · refine ⟨monthlyDataB_sorted ts, monthlyDataB_month_pairwise_ne ts, ?_, ?_⟩
    · intro k
      constructor
      · rintro ⟨r, hr, hrk⟩
        rcases (mem_monthlyDataB ts r).mp hr with ⟨k', hk', rfl⟩
        have hkk : k' = k := hrk
        subst hkk
        exact List.mem_map.mp (mem_dedupKeys.mp hk')
      · rintro ⟨t, ht, htk⟩
        have hk : k ∈ dedupKeys (ts.map (fun t => monthKey t.date)) :=
          mem_dedupKeys.mpr (List.mem_map.mpr ⟨t, ht, htk⟩)
        exact ⟨_, (mem_monthlyDataB ts _).mpr ⟨k, hk, rfl⟩, rfl⟩
    · intro r hr
      rcases (mem_monthlyDataB ts r).mp hr with ⟨k, hk, rfl⟩
      refine ⟨rfl, ?_, rfl⟩
      exact elseSum_eq_expenseSum _ (fun t ht => henum t (List.mem_filter.mp ht).1)
  · refine ⟨formattedMonthlyDataA_sorted ts,
      formattedMonthlyDataA_month_pairwise_ne ts, ?_, ?_⟩
    · intro k
      constructor
      · rintro ⟨r, hr, hrk⟩
        rcases (mem_formattedMonthlyDataA ts r).mp hr with ⟨k', hk', rfl⟩
        have hkk : k' = k := hrk
        subst hkk
        exact List.mem_map.mp (mem_dedupKeys.mp hk')
      · rintro ⟨t, ht, htk⟩
        have hk : k ∈ dedupKeys (ts.map (fun t => monthKeyISO t.date)) :=
          mem_dedupKeys.mpr (List.mem_map.mpr ⟨t, ht, htk⟩)
        exact ⟨_, (mem_formattedMonthlyDataA ts _).mpr ⟨k, hk, rfl⟩, rfl⟩
    · intro r hr
      rcases (mem_formattedMonthlyDataA ts r).mp hr with ⟨k, hk, rfl⟩
      refine ⟨rfl, ?_, rfl⟩
      exact elseSum_eq_expenseSum _ (fun t ht => henum t (List.mem_filter.mp ht).1)

/-- Witness for C2 at the three-transaction example of the spec. -/
theorem C2_monthly_series_witness :
    (∀ t ∈ ([⟨1, 1, "income", 100, "Salary", none, ⟨2024, 1, 5⟩⟩,
             ⟨2, 1, "expense", 40, "Food", none, ⟨2024, 1, 10⟩⟩,
             ⟨3, 1, "expense", 10, "Food", none, ⟨2024, 2, 1⟩⟩] : List Transaction),
        t.type = "income" ∨ t.type = "expense")
    ∧ (ImplB.monthlyData ([⟨1, 1, "income", 100, "Salary", none, ⟨2024, 1, 5⟩⟩,
             ⟨2, 1, "expense", 40, "Food", none, ⟨2024, 1, 10⟩⟩,
             ⟨3, 1, "expense", 10, "Food", none, ⟨2024, 2, 1⟩⟩] : List Transaction)).Pairwise
        (fun a b => a.month ≤ b.month) :=
  ⟨by decide, (C2_monthly_series _ (by decide)).1.1⟩

/-- C1 counterexample: in implementation A a fetched set consisting of one
income transaction with category Salary has Salary as an observed category,
yet the emitted category breakdown is empty, so no {category, income,
expense, total} record with an explicit zero is emitted for it. -/
theorem C1_category_breakdown_cex :
    ImplA.formattedCategoryData
        ([⟨1, 1, "income", 100, "Salary", none, ⟨2024, 1, 5⟩⟩] : List Transaction) = []
    ∧ ([⟨1, 1, "income", 100, "Salary", none, ⟨2024, 1, 5⟩⟩] : List Transaction).map
        Transaction.category = ["Salary"] :=
  ⟨rfl, rfl⟩

/-- C1 amended: in implementation B the category breakdown groups by category
label, emits one record per observed category with total = income + expense
and with the income and expense sums of that category (zero when the category
has no transaction of that type). -/
theorem C1_category_breakdown (ts : List Transaction)
    (henum : ∀ t ∈ ts, t.type = "income" ∨ t.type = "expense") :
    (∀ r ∈ ImplB.categoryData ts,
        r.total = r.income + r.expense
      ∧ r.income = amountSum ((ts.filter (fun t => t.category == r.category)).filter
          (fun t => t.type == "income"))
      ∧ r.expense = amountSum ((ts.filter (fun t => t.category == r.category)).filter
          (fun t => t.type == "expense")))
    ∧ (∀ k, (∃ r ∈ ImplB.categoryData ts, r.category = k) ↔ ∃ t ∈ ts, t.category = k)
    ∧ (ImplB.categoryData ts).Pairwise (fun a b => a.category ≠ b.category) := by
  refine ⟨?_, ?_, categoryDataB_category_pairwise_ne ts⟩
  · intro r hr
    rcases (mem_categoryDataB ts r).mp hr with ⟨k, hk, rfl⟩
    refine ⟨rfl, rfl, ?_⟩
    exact elseSum_eq_expenseSum _ (fun t ht => henum t (List.mem_filter.mp ht).1)
  · intro k
    constructor
    · rintro ⟨r, hr, hrk⟩
      rcases (mem_categoryDataB ts r).mp hr with ⟨k', hk', rfl⟩
      have hkk : k' = k := hrk
      subst hkk
      exact List.mem_map.mp (mem_dedupKeys.mp hk')
    · rintro ⟨t, ht, htk⟩
      exact ⟨_, (mem_categoryDataB ts _).mpr
        ⟨k, mem_dedupKeys.mpr (List.mem_map.mpr ⟨t, ht, htk⟩), rfl⟩, rfl⟩

/-- Witness for the amended C1 at a concrete mixed-type transaction set. -/
theorem C1_category_breakdown_witness :
    (∀ t ∈ ([⟨1, 1, "income", 100, "Salary", none, ⟨2024, 1, 5⟩⟩,
             ⟨2, 1, "expense", 40, "Food", none, ⟨2024, 1, 10⟩⟩] : List Transaction),
        t.type = "income" ∨ t.type = "expense")
    ∧ (ImplB.categoryData ([⟨1, 1, "income", 100, "Salary", none, ⟨2024, 1, 5⟩⟩,
             ⟨2, 1, "expense", 40, "Food", none, ⟨2024, 1, 10⟩⟩] : List Transaction)).Pairwise
        (fun a b => a.category ≠ b.category) :=
  ⟨by decide, (C1_category_breakdown _ (by decide)).2.2⟩

/-- C9 counterexample: the stats fetch of implementation A keeps a
transaction dated 2024-03-15 when the request carries only
endDate = 2024-01-31, although the date is outside the inclusive range, so an
endDate bound alone does not restrict the fetched set. -/
theorem C9_range_filter_cex :
    ImplA.fetchStats
        ([⟨1, 1, "expense", 10, "Food", none, ⟨2024, 3, 15⟩⟩] : List Transaction)
        1 none (some ⟨2024, 1, 31⟩)
      = [⟨1, 1, "expense", 10, "Food", none, ⟨2024, 3, 15⟩⟩]
    ∧ Date.leb ⟨2024, 3, 15⟩ ⟨2024, 1, 31⟩ = false := by
  constructor
  · rfl
  · rfl

/-- C9 amended: the stats fetch of implementation B accepts startDate and
endDate independently and keeps exactly the transactions of the user whose
date lies in the inclusive range, an absent bound being unbounded on that
side; implementation A honors only startDate and ignores endDate. -/
theorem C9_range_filter (store : List Transaction) (u : Nat)
    (sd ed : Option Date) :
    (∀ t, t ∈ ImplB.fetchStats store u sd ed
        ↔ t ∈ store ∧ t.userId = u
          ∧ (∀ d, sd = some d → Date.leb d t.date = true)
          ∧ (∀ d, ed = some d → Date.leb t.date d = true))
    ∧ (∀ t, t ∈ ImplA.fetchStats store u sd ed
        ↔ t ∈ store ∧ t.userId = u
          ∧ (∀ d, sd = some d → Date.leb d t.date = true)) := by
  constructor
  · intro t
    unfold ImplB.fetchStats
    rw [List.mem_filter]
    cases sd with
    | none =>
      cases ed with
      | none => simp
      | some d => simp [beq_iff_eq, and_assoc]
    | some d0 =>
      cases ed with
      | none => simp [beq_iff_eq, and_assoc]
      | some d => simp [beq_iff_eq, and_assoc]
  · intro t
    unfold ImplA.fetchStats
    rw [List.mem_filter]
    cases sd with
    | none => simp
    | some d0 => simp [beq_iff_eq, and_assoc]

/-- Witness for the amended C9 at a concrete store and range. -/
theorem C9_range_filter_witness :
    ∀ t, t ∈ ImplB.fetchStats
        ([⟨1, 1, "expense", 10, "Food", none, ⟨2024, 3, 15⟩⟩] : List Transaction)
        1 none (some ⟨2024, 1, 31⟩)
      ↔ t ∈ ([⟨1, 1, "expense", 10, "Food", none, ⟨2024, 3, 15⟩⟩] : List Transaction)
          ∧ t.userId = 1
          ∧ (∀ d, (none : Option Date) = some d → Date.leb d t.date = true)
          ∧ (∀ d, (some (⟨2024, 1, 31⟩ : Date)) = some d → Date.leb t.date d = true) :=
  (C9_range_filter _ 1 none (some ⟨2024, 1, 31⟩)).1

theorem strTruthy_some {o : Option String} (h : strTruthy o = true) :
    o = some (o.getD "") := by
  cases o with
  | none => simp [strTruthy] at h
  | some s => rfl

theorem numTruthy_some {o : Option Int} (h : numTruthy o = true) :
    o = some (o.getD 0) := by
  cases o with
  | none => simp [numTruthy] at h
  | some a => rfl

/-- C6 counterexample: implementation A performs no route-level validation,
and an invalid create request (amount -5) surfaces as a 500 Server error from
the save failure instead of a 400 validation rejection. -/
theorem C6_create_validation_cex :
    ImplA.createTransaction 1 7 ⟨2024, 1, 1⟩
        ⟨some "expense", some (-5), some "Food", none, none⟩
      = .error ⟨500, "Server error"⟩ := rfl

/-- C6 amended: the create route of implementation B rejects with a 400
exactly when type, amount or category is missing (JavaScript-falsy), when the
type is outside the income/expense enumeration, or when the amount is not
positive; otherwise it returns the created record with owner set to the
authenticated user and the date defaulting to now. -/
theorem C6_create_validation (u nid : Nat) (now : Date) (b : ImplB.CreateBody) :
    ((∃ e, ImplB.createTransaction u nid now b = .error e)
      ↔ (strTruthy b.type = false ∨ numTruthy b.amount = false
          ∨ strTruthy b.category = false
          ∨ (b.type ≠ some "income" ∧ b.type ≠ some "expense")
          ∨ (∃ a, b.amount = some a ∧ a ≤ 0)))
    ∧ (∀ e, ImplB.createTransaction u nid now b = .error e → e.status = 400)
    ∧ (∀ t, ImplB.createTransaction u nid now b = .ok t →
        t.userId = u ∧ b.type = some t.type ∧ b.amount = some t.amount
          ∧ b.category = some t.category ∧ t.note = b.note
          ∧ t.date = b.date.getD now ∧ t.tid = nid) := by
  unfold ImplB.createTransaction
  by_cases h1 : (!(strTruthy b.type) || !(numTruthy b.amount) || !(strTruthy b.category)) = true
  · rw [if_pos h1]
    simp only [Bool.or_eq_true, Bool.not_eq_true'] at h1
    refine ⟨⟨fun _ => ?_, fun _ => ⟨_, rfl⟩⟩, fun e he => ?_,
      fun t ht => Except.noConfusion ht⟩
    · rcases h1 with (h | h) | h
      · exact Or.inl h
      · exact Or.inr (Or.inl h)
      · exact Or.inr (Or.inr (Or.inl h))
    · injection he with h4
      rw [← h4]
  · rw [if_neg h1]
    by_cases h2 : (!(includesIncomeExpense b.type)) = true
    · rw [if_pos h2]
      simp only [Bool.not_eq_true', includesIncomeExpense, Bool.or_eq_false_iff,
        beq_eq_false_iff_ne, ne_eq] at h2
      refine ⟨⟨fun _ => Or.inr (Or.inr (Or.inr (Or.inl h2))), fun _ => ⟨_, rfl⟩⟩,
        fun e he => ?_, fun t ht => Except.noConfusion ht⟩
      injection he with h4
      rw [← h4]
    · rw [if_neg h2]
      by_cases h3 : numLe0 b.amount = true
      · rw [if_pos h3]
        have hA : ∃ a, b.amount = some a ∧ a ≤ 0 := by
          cases hb : b.amount with
          | none =>
            rw [hb] at h3
            exact Bool.noConfusion h3
          | some a =>
            rw [hb] at h3
            exact ⟨a, rfl, of_decide_eq_true h3⟩
        refine ⟨⟨fun _ => Or.inr (Or.inr (Or.inr (Or.inr hA))), fun _ => ⟨_, rfl⟩⟩,
          fun e he => ?_, fun t ht => Except.noConfusion ht⟩
        injection he with h4
        rw [← h4]
      · rw [if_neg h3]
        simp only [Bool.or_eq_true, Bool.not_eq_true', not_or, Bool.not_eq_false] at h1
        simp only [Bool.not_eq_true', Bool.not_eq_false, includesIncomeExpense,
          Bool.or_eq_true, beq_iff_eq] at h2
        simp only [Bool.not_eq_true] at h3
        refine ⟨⟨?_, ?_⟩, fun e he => Except.noConfusion he, fun t ht => ?_⟩
        · rintro ⟨e, he⟩
          exact Except.noConfusion he
        · intro hR
          exfalso
          rcases hR with h | h | h | ⟨hi, he'⟩ | ⟨a, ha, hle⟩
          · rw [h1.1.1] at h
            exact Bool.noConfusion h
          · rw [h1.1.2] at h
            exact Bool.noConfusion h
          · rw [h1.2] at h
            exact Bool.noConfusion h
          · rcases h2 with h4 | h4
            · exact hi h4
            · exact he' h4
          · rw [ha] at h3
            simp only [numLe0, decide_eq_false_iff_not] at h3
            exact h3 hle
        · injection ht with h4
          subst h4
          refine ⟨rfl, ?_, ?_, ?_, rfl, rfl, rfl⟩
          · exact strTruthy_some h1.1.1
          · exact numTruthy_some h1.1.2
          · exact strTruthy_some h1.2

/-- Witness for the amended C6 at a concrete valid request body. -/
theorem C6_create_validation_witness :
    ∀ t, ImplB.createTransaction 1 7 ⟨2024, 1, 1⟩
        ⟨some "income", some 100, some "Salary", none, none⟩ = .ok t →
      t.userId = 1
        ∧ (some "income" : Option String) = some t.type
        ∧ (some (100 : Int) : Option Int) = some t.amount
        ∧ (some "Salary" : Option String) = some t.category
        ∧ t.note = none
        ∧ t.date = (none : Option Date).getD ⟨2024, 1, 1⟩
        ∧ t.tid = 7 :=
  (C6_create_validation 1 7 ⟨2024, 1, 1⟩
    ⟨some "income", some 100, some "Salary", none, none⟩).2.2

theorem verifyOwnership_none {store : List Transaction} {id : Nat} (u : Nat)
    (h : store.find? (fun t => t.tid == id) = none) :
    ImplA.verifyTransactionOwnership store id u
      = .error ⟨404, "Transaction not found"⟩ := by
  unfold ImplA.verifyTransactionOwnership
  rw [h]

theorem verifyOwnership_some {store : List Transaction} {id : Nat}
    {t0 : Transaction} (u : Nat)
    (h : store.find? (fun t => t.tid == id) = some t0) :
    ImplA.verifyTransactionOwnership store id u
      = if !(t0.userId == u) then
          .error ⟨403, "Not authorized to access this transaction"⟩
        else .ok t0 := by
  unfold ImplA.verifyTransactionOwnership
  rw [h]

/-- C7: a single-resource request by user a against a transaction owned by
user b never yields the record: the middleware of implementation A answers
404 when the id is absent and 403 when the owner differs, the findOne of
implementation B consistently answers 404, and on success the middleware
attaches exactly the loaded transaction, which belongs to the requester. -/
theorem C7_ownership_isolation (store : List Transaction) (id : Nat) (a b : Nat)
    (hab : a ≠ b) (hown : ∀ t ∈ store, t.tid = id → t.userId = b) :
    (∀ t, ImplA.verifyTransactionOwnership store id a ≠ .ok t)
    ∧ (∀ t, ImplB.getTransaction store id a ≠ .ok t)
    ∧ (store.find? (fun t => t.tid == id) = none →
        ImplA.verifyTransactionOwnership store id a
          = .error ⟨404, "Transaction not found"⟩)
    ∧ (∀ t0, store.find? (fun t => t.tid == id) = some t0 →
        ImplA.verifyTransactionOwnership store id a
          = .error ⟨403, "Not authorized to access this transaction"⟩)
    ∧ ImplB.getTransaction store id a = .error ⟨404, "Transaction not found"⟩
    ∧ (∀ u t, ImplA.verifyTransactionOwnership store id u = .ok t →
        t ∈ store ∧ t.tid = id ∧ t.userId = u) := by
  have hBfind : store.find? (fun t => t.tid == id && t.userId == a) = none := by
    rw [List.find?_eq_none]
    intro t ht hp
    rw [Bool.and_eq_true, beq_iff_eq, beq_iff_eq] at hp
    exact hab (hp.2.symm.trans (hown t ht hp.1))
  have hBget : ImplB.getTransaction store id a
      = .error ⟨404, "Transaction not found"⟩ := by
    unfold ImplB.getTransaction
    rw [hBfind]
  refine ⟨?_, ?_, ?_, ?_, hBget, ?_⟩
  · intro t hok
    cases hfa : store.find? (fun t => t.tid == id) with
    | none =>
      rw [verifyOwnership_none a hfa] at hok
      exact Except.noConfusion hok
    | some t0 =>
      have ht0mem := List.mem_of_find?_eq_some hfa
      have ht0id : t0.tid = id := by
        have hp := List.find?_some hfa
        simpa using hp
      have ht0b : t0.userId = b := hown t0 ht0mem ht0id
      have hcond : (!(t0.userId == a)) = true := by
        rw [ht0b]
        simp [beq_eq_false_iff_ne]
        exact fun h => hab h.symm
      rw [verifyOwnership_some a hfa, if_pos hcond] at hok
      exact Except.noConfusion hok
  · intro t hok
    rw [hBget] at hok
    exact Except.noConfusion hok
  · intro hfa
    exact verifyOwnership_none a hfa
  · intro t0 hfa
    have ht0mem := List.mem_of_find?_eq_some hfa
    have ht0id : t0.tid = id := by
      have hp := List.find?_some hfa
      simpa using hp
    have ht0b : t0.userId = b := hown t0 ht0mem ht0id
    have hcond : (!(t0.userId == a)) = true := by
      rw [ht0b]
      simp [beq_eq_false_iff_ne]
      exact fun h => hab h.symm
    rw [verifyOwnership_some a hfa, if_pos hcond]
  · intro u t hok
    cases hfa : store.find? (fun t => t.tid == id) with
    | none =>
      rw [verifyOwnership_none u hfa] at hok
      exact Except.noConfusion hok
    | some t0 =>
      rw [verifyOwnership_some u hfa] at hok
      by_cases hcond : (!(t0.userId == u)) = true
      · rw [if_pos hcond] at hok
        exact Except.noConfusion hok
      · rw [if_neg hcond] at hok
        injection hok with h4
        subst h4
        simp only [Bool.not_eq_true', Bool.not_eq_false] at hcond
        refine ⟨List.mem_of_find?_eq_some hfa, ?_, beq_iff_eq.mp hcond⟩
        have hp := List.find?_some hfa
        simpa using hp

/-- Witness for C7 at a concrete store owned by user 2 and a request by
user 1. -/
theorem C7_ownership_isolation_witness :
    (1 : Nat) ≠ 2
    ∧ (∀ t ∈ ([⟨5, 2, "income", 10, "Pay", none, ⟨2024, 1, 1⟩⟩] : List Transaction),
        t.tid = 5 → t.userId = 2)
    ∧ ImplB.getTransaction
        ([⟨5, 2, "income", 10, "Pay", none, ⟨2024, 1, 1⟩⟩] : List Transaction) 5 1
      = .error ⟨404, "Transaction not found"⟩ :=
  ⟨by decide, by decide,
    (C7_ownership_isolation _ 5 1 2 (by decide) (by decide)).2.2.2.2.1⟩

/-- C8 counterexample: the update route of implementation A applies
findByIdAndUpdate without re-running the schema validators, so an update by
the owner setting type to banana succeeds and rewrites the stored record
instead of being rejected with a 400. -/
theorem C8_partial_update_cex :
    ImplA.putRoute ([⟨1, 1, "income", 50, "Pay", none, ⟨2024, 1, 1⟩⟩] : List Transaction)
        1 1 ⟨some "banana", none, none, none, none⟩
      = (.ok ⟨1, 1, "banana", 50, "Pay", none, ⟨2024, 1, 1⟩⟩,
         [⟨1, 1, "banana", 50, "Pay", none, ⟨2024, 1, 1⟩⟩]) := rfl

/-- C8 amended: in implementation B the update is partial - each stored field
changes exactly when the corresponding request field is present (JavaScript
truthiness for type and category, a defined key for amount, note and date),
provided type and amount are re-validated with the create rules, any failure
is a 400 and, at the store level, an update that does not succeed leaves the
store unchanged. -/
theorem C8_partial_update (t0 : Transaction) (b : ImplB.UpdateBody) :
    (∀ t', ImplB.updateTransaction t0 b = .ok t' →
        t'.type = (if strTruthy b.type then b.type.getD t0.type else t0.type)
      ∧ t'.amount = (if b.amount.isSome then b.amount.getD t0.amount else t0.amount)
      ∧ t'.category = (if strTruthy b.category then b.category.getD t0.category
          else t0.category)
      ∧ t'.note = (if b.note.isSome then b.note else t0.note)
      ∧ t'.date = (if b.date.isSome then b.date.getD t0.date else t0.date)
      ∧ t'.tid = t0.tid ∧ t'.userId = t0.userId)
    ∧ ((∃ e, ImplB.updateTransaction t0 b = .error e)
        ↔ ((strTruthy b.type = true ∧ b.type ≠ some "income" ∧ b.type ≠ some "expense")
            ∨ (∃ a, b.amount = some a ∧ a ≤ 0)))
    ∧ (∀ e, ImplB.updateTransaction t0 b = .error e → e.status = 400)
    ∧ (∀ store id u e, (ImplB.putRoute store id u b).1 = .error e →
        (ImplB.putRoute store id u b).2 = store) := by
  have hputnone : ∀ (store : List Transaction) (id u : Nat),
      store.find? (fun t => t.tid == id && t.userId == u) = none →
      ImplB.putRoute store id u b
        = (.error ⟨404, "Transaction not found"⟩, store) := by
    intro store id u h
    unfold ImplB.putRoute
    rw [h]
  have hputsome : ∀ (store : List Transaction) (id u : Nat) (t1 : Transaction),
      store.find? (fun t => t.tid == id && t.userId == u) = some t1 →
      ImplB.putRoute store id u b
        = match ImplB.updateTransaction t1 b with
          | .error e => (.error e, store)
          | .ok t' => (.ok t', store.map (fun s => if s.tid == id then t' else s)) := by
    intro store id u t1 h
    unfold ImplB.putRoute
    rw [h]
  have hframe : ∀ (store : List Transaction) (id u : Nat) (e : ErrResp),
      (ImplB.putRoute store id u b).1 = .error e →
      (ImplB.putRoute store id u b).2 = store := by
    intro store id u e h
    cases hf : store.find? (fun t => t.tid == id && t.userId == u) with
    | none => rw [hputnone store id u hf]
    | some t1 =>
      rw [hputsome store id u t1 hf] at h ⊢
      cases hu : ImplB.updateTransaction t1 b with
      | error e2 => rfl
      | ok t' =>
        rw [hu] at h
        simp at h
  unfold ImplB.updateTransaction
  by_cases h1 : (strTruthy b.type && !(includesIncomeExpense b.type)) = true
  · rw [if_pos h1]
    simp only [Bool.and_eq_true, Bool.not_eq_true', includesIncomeExpense,
      Bool.or_eq_false_iff, beq_eq_false_iff_ne, ne_eq] at h1
    refine ⟨fun t' ht' => Except.noConfusion ht',
      ⟨fun _ => Or.inl ⟨h1.1, h1.2.1, h1.2.2⟩, fun _ => ⟨_, rfl⟩⟩,
      fun e he => ?_, hframe⟩
    injection he with h4
    rw [← h4]
  · rw [if_neg h1]
    by_cases h2 : (b.amount.isSome && numLe0 b.amount) = true
    · rw [if_pos h2]
      have hA : ∃ a, b.amount = some a ∧ a ≤ 0 := by
        rw [Bool.and_eq_true] at h2
        rcases h2 with ⟨hs, hl⟩
        cases hb : b.amount with
        | none =>
          rw [hb] at hs
          exact Bool.noConfusion hs
        | some a =>
          rw [hb] at hl
          exact ⟨a, rfl, of_decide_eq_true hl⟩
      refine ⟨fun t' ht' => Except.noConfusion ht',
        ⟨fun _ => Or.inr hA, fun _ => ⟨_, rfl⟩⟩, fun e he => ?_, hframe⟩
      injection he with h4
      rw [← h4]
    · rw [if_neg h2]
      refine ⟨fun t' ht' => ?_, ⟨?_, ?_⟩, fun e he => Except.noConfusion he, hframe⟩
      · injection ht' with h4
        subst h4
        exact ⟨rfl, rfl, rfl, rfl, rfl, rfl, rfl⟩
      · rintro ⟨e, he⟩
        exact Except.noConfusion he
      · intro hR
        exfalso
        rcases hR with ⟨hty, hne1, hne2⟩ | ⟨a, ha, hle⟩
        · simp only [Bool.and_eq_true, not_and, Bool.not_eq_true',
            Bool.not_eq_false] at h1
          have hinc := h1 hty
          simp only [includesIncomeExpense, Bool.or_eq_true, beq_iff_eq] at hinc
          rcases hinc with h4 | h4
          · exact hne1 h4
          · exact hne2 h4
        · have hs : b.amount.isSome = true := by rw [ha]; rfl
          have hl : numLe0 b.amount = true := by
            rw [ha]
            exact decide_eq_true hle
          exact h2 (by rw [Bool.and_eq_true]; exact ⟨hs, hl⟩)

/-- Witness for the amended C8 at a concrete record and a category-only
update body. -/
theorem C8_partial_update_witness :
    ∀ t', ImplB.updateTransaction
        (⟨1, 1, "income", 50, "Pay", none, ⟨2024, 1, 1⟩⟩ : Transaction)
        (⟨none, none, some "Dining", none, none⟩ : ImplB.UpdateBody) = .ok t' →
      t'.type = (if strTruthy (none : Option String) then
          (none : Option String).getD "income" else "income")
      ∧ t'.amount = (if (none : Option Int).isSome then
          (none : Option Int).getD 50 else 50)
      ∧ t'.category = (if strTruthy (some "Dining") then
          (some "Dining" : Option String).getD "Pay" else "Pay")
      ∧ t'.note = (if (none : Option String).isSome then none
          else (none : Option String))
      ∧ t'.date = (if (none : Option Date).isSome then
          (none : Option Date).getD ⟨2024, 1, 1⟩ else ⟨2024, 1, 1⟩)
      ∧ t'.tid = 1 ∧ t'.userId = 1 :=
  (C8_partial_update ⟨1, 1, "income", 50, "Pay", none, ⟨2024, 1, 1⟩⟩
    ⟨none, none, some "Dining", none, none⟩).1

/-! ## Permutation invariance of the aggregation -/

theorem amountSum_perm {ts1 ts2 : List Transaction} (h : ts1.Perm ts2) :
    amountSum ts1 = amountSum ts2 :=
  (h.map _).sum_eq

theorem incSum_perm {ts1 ts2 : List Transaction} (h : ts1.Perm ts2) :
    incSum ts1 = incSum ts2 :=
  amountSum_perm (h.filter _)

theorem elseSum_perm {ts1 ts2 : List Transaction} (h : ts1.Perm ts2) :
    elseSum ts1 = elseSum ts2 :=
  amountSum_perm (h.filter _)

theorem summaryB_perm {ts1 ts2 : List Transaction} (h : ts1.Perm ts2) :
    ImplB.summary ts1 = ImplB.summary ts2 := by
  rw [summaryB_eq, summaryB_eq, incSum_perm h, elseSum_perm h]

theorem dedupKeys_perm {l1 l2 : List String} (h : l1.Perm l2) :
    (dedupKeys l1).Perm (dedupKeys l2) := by
  rw [List.perm_ext_iff_of_nodup (dedupKeys_nodup l1) (dedupKeys_nodup l2)]
  intro a
  rw [mem_dedupKeys, mem_dedupKeys]
  exact h.mem_iff

theorem pairwise_and {α : Type} {R S : α → α → Prop} {l : List α}
    (h1 : l.Pairwise R) (h2 : l.Pairwise S) :
    l.Pairwise (fun a b => R a b ∧ S a b) := by
  induction l with
  | nil => exact List.Pairwise.nil
  | cons x xs ih =>
    rcases List.pairwise_cons.mp h1 with ⟨hx1, ht1⟩
    rcases List.pairwise_cons.mp h2 with ⟨hx2, ht2⟩
    exact List.pairwise_cons.mpr ⟨fun z hz => ⟨hx1 z hz, hx2 z hz⟩, ih ht1 ht2⟩

/-- Two permuted lists that are both sorted by a string key with pairwise
distinct keys are equal: the sort of the grouped entries is deterministic. -/
theorem sorted_unique_by_key {α : Type} (key : α → String) (l1 l2 : List α)
    (hp : l1.Perm l2)
    (hs1 : l1.Pairwise (fun a b => key a ≤ key b))
    (hs2 : l2.Pairwise (fun a b => key a ≤ key b))
    (hn1 : l1.Pairwise (fun a b => key a ≠ key b)) : l1 = l2 := by
  have hn2 : l2.Pairwise (fun a b => key a ≠ key b) :=
    (hp.pairwise_iff (fun {a b} h h2 => h h2.symm)).mp hn1
  have hlt1 : l1.Pairwise (fun a b => key a < key b) :=
    (pairwise_and hs1 hn1).imp (fun {a b} h => lt_of_le_of_ne h.1 h.2)
  have hlt2 : l2.Pairwise (fun a b => key a < key b) :=
    (pairwise_and hs2 hn2).imp (fun {a b} h => lt_of_le_of_ne h.1 h.2)
  haveI : IsAntisymm α (fun a b => key a < key b) :=
    ⟨fun a b h1 h2 => absurd (h1.trans h2) (lt_irrefl _)⟩
  exact List.eq_of_perm_of_sorted hp hlt1 hlt2

theorem monthlyStatsB_perm {ts1 ts2 : List Transaction} (h : ts1.Perm ts2) :
    (ImplB.monthlyStats ts1).Perm (ImplB.monthlyStats ts2) := by
  rw [monthlyStatsB_eq, monthlyStatsB_eq]
  have hcongr : (dedupKeys (ts1.map (fun t => monthKey t.date))).map
        (fun k => (k, (⟨incSum (ts1.filter (fun t => monthKey t.date == k)),
            elseSum (ts1.filter (fun t => monthKey t.date == k))⟩ : IncExp)))
      = (dedupKeys (ts1.map (fun t => monthKey t.date))).map
        (fun k => (k, (⟨incSum (ts2.filter (fun t => monthKey t.date == k)),
            elseSum (ts2.filter (fun t => monthKey t.date == k))⟩ : IncExp))) := by
    apply List.map_congr_left
    intro k hk
    rw [incSum_perm (h.filter _), elseSum_perm (h.filter _)]
  rw [hcongr]
  exact (dedupKeys_perm (h.map _)).map _

theorem categoryStatsB_perm {ts1 ts2 : List Transaction} (h : ts1.Perm ts2) :
    (ImplB.categoryStats ts1).Perm (ImplB.categoryStats ts2) := by
  rw [categoryStatsB_eq, categoryStatsB_eq]
  have hcongr : (dedupKeys (ts1.map (fun t => t.category))).map
        (fun k => (k, (⟨incSum (ts1.filter (fun t => t.category == k)),
            elseSum (ts1.filter (fun t => t.category == k))⟩ : IncExp)))
      = (dedupKeys (ts1.map (fun t => t.category))).map
        (fun k => (k, (⟨incSum (ts2.filter (fun t => t.category == k)),
            elseSum (ts2.filter (fun t => t.category == k))⟩ : IncExp))) := by
    apply List.map_congr_left
    intro k hk
    rw [incSum_perm (h.filter _), elseSum_perm (h.filter _)]
  rw [hcongr]
  exact (dedupKeys_perm (h.map _)).map _

theorem categoryDataB_perm {ts1 ts2 : List Transaction} (h : ts1.Perm ts2) :
    (ImplB.categoryData ts1).Perm (ImplB.categoryData ts2) := by
  unfold ImplB.categoryData
  exact (categoryStatsB_perm h).map _

theorem monthlyDataB_perm {ts1 ts2 : List Transaction} (h : ts1.Perm ts2) :
    ImplB.monthlyData ts1 = ImplB.monthlyData ts2 := by
  unfold ImplB.monthlyData
  have hsorted : sortStable (fun a b => decide (a.1 ≤ b.1)) (ImplB.monthlyStats ts1)
      = sortStable (fun a b => decide (a.1 ≤ b.1)) (ImplB.monthlyStats ts2) := by
    apply sorted_unique_by_key Prod.fst
    · exact (sortStable_perm _ _).trans
        ((monthlyStatsB_perm h).trans (sortStable_perm _ _).symm)
    · exact (sortStable_pairwise _ entry_le_total entry_le_trans _).imp
        (fun {a b} hab => of_decide_eq_true hab)
    · exact (sortStable_pairwise _ entry_le_total entry_le_trans _).imp
        (fun {a b} hab => of_decide_eq_true hab)
    · exact ((sortStable_perm _ _).pairwise_iff
        (fun {a b} hab h2 => hab h2.symm)).mpr (monthlyStatsB_pairwise_ne ts1)
  rw [hsorted]

theorem monthlyStatsA_perm {ts1 ts2 : List Transaction} (h : ts1.Perm ts2) :
    (ImplA.monthlyStats ts1).Perm (ImplA.monthlyStats ts2) := by
  rw [monthlyStatsA_eq, monthlyStatsA_eq]
  have hcongr : (dedupKeys (ts1.map (fun t => monthKeyISO t.date))).map
        (fun k => (k, (⟨incSum (ts1.filter (fun t => monthKeyISO t.date == k)),
            elseSum (ts1.filter (fun t => monthKeyISO t.date == k)),
            incSum (ts1.filter (fun t => monthKeyISO t.date == k))
              - elseSum (ts1.filter (fun t => monthKeyISO t.date == k))⟩ : MIEB)))
      = (dedupKeys (ts1.map (fun t => monthKeyISO t.date))).map
        (fun k => (k, (⟨incSum (ts2.filter (fun t => monthKeyISO t.date == k)),
            elseSum (ts2.filter (fun t => monthKeyISO t.date == k)),
            incSum (ts2.filter (fun t => monthKeyISO t.date == k))
              - elseSum (ts2.filter (fun t => monthKeyISO t.date == k))⟩ : MIEB))) := by
    apply List.map_congr_left
    intro k hk
    rw [incSum_perm (h.filter _), elseSum_perm (h.filter _)]
  rw [hcongr]
  exact (dedupKeys_perm (h.map _)).map _

theorem formattedMonthlyDataA_perm {ts1 ts2 : List Transaction} (h : ts1.Perm ts2) :
    ImplA.formattedMonthlyData ts1 = ImplA.formattedMonthlyData ts2 := by
  unfold ImplA.formattedMonthlyData
  apply sorted_unique_by_key MonthRec.month
  · exact (sortStable_perm _ _).trans
      (((monthlyStatsA_perm h).map _).trans (sortStable_perm _ _).symm)
  · exact (sortStable_pairwise _ monthRec_le_total monthRec_le_trans _).imp
      (fun {a b} hab => of_decide_eq_true hab)
  · exact (sortStable_pairwise _ monthRec_le_total monthRec_le_trans _).imp
      (fun {a b} hab => of_decide_eq_true hab)
  · exact formattedMonthlyDataA_month_pairwise_ne ts1

theorem categoryStatsA_perm {ts1 ts2 : List Transaction} (h : ts1.Perm ts2) :
    (ImplA.categoryStats ts1).Perm (ImplA.categoryStats ts2) := by
  rw [categoryStatsA_eq, categoryStatsA_eq]
  have hcongr : (dedupKeys ((ts1.filter (fun t => t.type == "expense")).map
        (fun t => t.category))).map
        (fun k => (k, amountSum ((ts1.filter (fun t => t.type == "expense")).filter
            (fun t => t.category == k))))
      = (dedupKeys ((ts1.filter (fun t => t.type == "expense")).map
        (fun t => t.category))).map
        (fun k => (k, amountSum ((ts2.filter (fun t => t.type == "expense")).filter
            (fun t => t.category == k)))) := by
    apply List.map_congr_left
    intro k hk
    rw [amountSum_perm ((h.filter _).filter _)]
  rw [hcongr]
  exact (dedupKeys_perm ((h.filter _).map _)).map _

/-- C3 counterexample: two expense transactions with distinct categories and
equal totals, fetched in the two possible orders, give different stats
responses: the tie in the in-place descending sort keeps first-occurrence
order, so the categoryData (and topCategories) order follows fetch order. -/
theorem C3_determinism_cex :
    ([⟨1, 1, "expense", 5, "a", none, ⟨2024, 1, 1⟩⟩,
      ⟨2, 1, "expense", 5, "b", none, ⟨2024, 1, 1⟩⟩] : List Transaction).Perm
      [⟨2, 1, "expense", 5, "b", none, ⟨2024, 1, 1⟩⟩,
       ⟨1, 1, "expense", 5, "a", none, ⟨2024, 1, 1⟩⟩]
    ∧ ImplB.stats [⟨1, 1, "expense", 5, "a", none, ⟨2024, 1, 1⟩⟩,
        ⟨2, 1, "expense", 5, "b", none, ⟨2024, 1, 1⟩⟩]
      ≠ ImplB.stats [⟨2, 1, "expense", 5, "b", none, ⟨2024, 1, 1⟩⟩,
        ⟨1, 1, "expense", 5, "a", none, ⟨2024, 1, 1⟩⟩] := by
  constructor
  · exact List.Perm.swap _ _ _
  · decide

/-- C3 amended: over permutations of the fetched set the summary, the monthly
series and the monthly trend are identical, and the category breakdown (and
hence topCategories) is preserved only as a multiset - its record order can
follow fetch order, as the counterexample shows; the same holds for the
summary, monthly series and category multiset of implementation A. -/
theorem C3_determinism (ts1 ts2 : List Transaction) (h : ts1.Perm ts2) :
    (ImplB.stats ts1).summary = (ImplB.stats ts2).summary
    ∧ (ImplB.stats ts1).monthlyData = (ImplB.stats ts2).monthlyData
    ∧ (ImplB.stats ts1).monthlyTrend = (ImplB.stats ts2).monthlyTrend
    ∧ ((ImplB.stats ts1).categoryData).Perm ((ImplB.stats ts2).categoryData)
    ∧ ImplA.summary ts1 = ImplA.summary ts2
    ∧ ImplA.formattedMonthlyData ts1 = ImplA.formattedMonthlyData ts2
    ∧ (ImplA.formattedCategoryData ts1).Perm (ImplA.formattedCategoryData ts2) := by
  have hmd : ImplB.monthlyData ts1 = ImplB.monthlyData ts2 := monthlyDataB_perm h
  refine ⟨summaryB_perm h, hmd, ?_, ?_, summaryB_perm h,
    formattedMonthlyDataA_perm h, (categoryStatsA_perm h).map _⟩
  · show (ImplB.monthlyData ts1).map _ = (ImplB.monthlyData ts2).map _
    rw [hmd]
  · show (sortStable _ (ImplB.categoryData ts1)).Perm
      (sortStable _ (ImplB.categoryData ts2))
    exact (sortStable_perm _ _).trans
      ((categoryDataB_perm h).trans (sortStable_perm _ _).symm)

/-- Witness for the amended C3 at a concrete permutation pair. -/
theorem C3_determinism_witness :
    ([⟨1, 1, "income", 7, "Pay", none, ⟨2024, 2, 2⟩⟩,
      ⟨2, 1, "expense", 3, "Food", none, ⟨2024, 1, 9⟩⟩] : List Transaction).Perm
      [⟨2, 1, "expense", 3, "Food", none, ⟨2024, 1, 9⟩⟩,
       ⟨1, 1, "income", 7, "Pay", none, ⟨2024, 2, 2⟩⟩]
    ∧ (ImplB.stats [⟨1, 1, "income", 7, "Pay", none, ⟨2024, 2, 2⟩⟩,
          ⟨2, 1, "expense", 3, "Food", none, ⟨2024, 1, 9⟩⟩]).monthlyData
      = (ImplB.stats [⟨2, 1, "expense", 3, "Food", none, ⟨2024, 1, 9⟩⟩,
          ⟨1, 1, "income", 7, "Pay", none, ⟨2024, 2, 2⟩⟩]).monthlyData :=
  ⟨List.Perm.swap _ _ _, (C3_determinism _ _ (List.Perm.swap _ _ _)).2.1⟩

end FinanceTracker
